import Mathlib

/- Verification development for a GTFS public-transit itinerary engine.
   The source (backend/utils.py, backend/db.py) is shallowly embedded:
   Python floats are modelled as exact rationals, Python datetime values as
   a calendar-free day-index/time-of-day record, fallible code as Except,
   dictionaries as association lists or pointwise-updated functions, and
   the sqlite queries as the corresponding list operations over in-memory
   tables.  The great-circle distance function (utils.haversine_distance_m,
   a pure collaborator of the routing code) is passed as an explicit
   function parameter `hav`, so every theorem quantifies over it. -/

namespace Transit

/-- Python int() truncation toward zero on a rational. -/
def ratTrunc (q : ℚ) : ℤ := if 0 ≤ q then ⌊q⌋ else ⌈q⌉

/-- Python datetime, reduced to the fields the engine reads and writes.
    The calendar date is abstracted to a signed day index: datetime plus
    timedelta arithmetic only ever shifts whole days here, and rendering a
    day index as year/month/day is presentation outside the claims. -/
structure DateTime where
  day : ℤ
  hour : ℕ
  minute : ℕ
  second : ℕ
  micro : ℕ
deriving DecidableEq, Repr

/-- Field validity enforced by Python datetime construction and parsing. -/
def DateTime.Valid (dt : DateTime) : Prop :=
  dt.hour ≤ 23 ∧ dt.minute ≤ 59 ∧ dt.second ≤ 59 ∧ dt.micro ≤ 999999

instance (dt : DateTime) : Decidable dt.Valid := by
  unfold DateTime.Valid; infer_instance

/-- Model of datetime + timedelta(seconds=s): Python timedelta addition
    normalises with floor division into whole days. -/
def DateTime.addSeconds (dt : DateTime) (s : ℤ) : DateTime :=
  let total : ℤ := (dt.hour : ℤ) * 3600 + (dt.minute : ℤ) * 60 + (dt.second : ℤ) + s
  { day := dt.day + total.fdiv 86400
    hour := (total.emod 86400).toNat / 3600
    minute := ((total.emod 86400).toNat % 3600) / 60
    second := (total.emod 86400).toNat % 60
    micro := dt.micro }

/-- Decimal digit run to a number; none when empty or a non-digit
    occurs. -/
def digitsToNat : List Char → Option ℕ
  | [] => none
  | cs =>
    cs.foldl
      (fun acc c => acc.bind fun n =>
        if c.isDigit then some (n * 10 + (c.toNat - 48)) else none)
      (some 0)

/-- Python int() on a text field: an optional sign then decimal digits
    (the whitespace and underscore forms do not occur in this data). -/
def pyInt : List Char → Option ℤ
  | '-' :: cs => (digitsToNat cs).map fun n => -(n : ℤ)
  | '+' :: cs => (digitsToNat cs).map fun n => (n : ℤ)
  | cs => (digitsToNat cs).map fun n => (n : ℤ)

/-- str.split on a colon; the empty string yields one empty field, as in
    Python. -/
def splitOnColon : List Char → List (List Char)
  | [] => [[]]
  | c :: cs =>
    if c = ':' then [] :: splitOnColon cs
    else
      match splitOnColon cs with
      | [] => [[c]]
      | g :: gs => (c :: g) :: gs

instance {ε α : Type} [DecidableEq ε] [DecidableEq α] : DecidableEq (Except ε α) := by
  intro x y
  cases x <;> cases y
  case ok.ok a b =>
    exact if h : a = b then isTrue (by rw [h]) else isFalse (by simp [h])
  case error.error a b =>
    exact if h : a = b then isTrue (by rw [h]) else isFalse (by simp [h])
  case ok.error a b => exact isFalse (by simp)
  case error.ok a b => exact isFalse (by simp)

/-- Embedding of utils.gtfs_time_to_seconds: split on a colon, require
    exactly three fields, parse each as a Python int, and return
    h*3600 + m*60 + s with no modulo applied (hours may exceed 23). -/
def gtfs_time_to_seconds (hms : String) : Except String ℤ :=
  let parts := splitOnColon hms.data
  if parts.length ≠ 3 then .error "Invalid GTFS time"
  else
    match parts.map pyInt with
    | [some h, some m, some s] => .ok (h * 3600 + m * 60 + s)
    | _ => .error "ValueError: invalid literal for int"

/-- Embedding of utils.combine_date_and_hms after ISO parsing of the base
    timestamp: keep the date part of the base, substitute the given
    HH:MM:SS fields.  datetime.replace validates each field (hour must be
    in 0..23, minute and second in 0..59) and raises ValueError otherwise;
    the callers do not catch that error. -/
def combine_date_and_hms (base : DateTime) (hms : String) : Except String DateTime :=
  let parts := splitOnColon hms.data
  if parts.length ≠ 3 then .error "Invalid time string"
  else
    match parts.map pyInt with
    | [some h, some m, some s] =>
      if 0 ≤ h ∧ h ≤ 23 ∧ 0 ≤ m ∧ m ≤ 59 ∧ 0 ≤ s ∧ s ≤ 59 then
        .ok { base with hour := h.toNat, minute := m.toNat, second := s.toNat, micro := 0 }
      else .error "ValueError: replace field out of range"
    | _ => .error "ValueError: invalid literal for int"

/-- Embedding of utils.iso_day_start_and_seconds: midnight of the same
    date, and the whole seconds elapsed since that midnight
    ((dt - day_start).seconds ignores microseconds). -/
def iso_day_start_and_seconds (dt : DateTime) : DateTime × ℕ :=
  ({ dt with hour := 0, minute := 0, second := 0, micro := 0 },
   dt.hour * 3600 + dt.minute * 60 + dt.second)

/-- Embedding of utils.day_start_plus_seconds_to_iso: add
    timedelta(seconds=int(seconds)) to the day-start anchor; handles
    values at or beyond 86400 by rolling into following days. -/
def day_start_plus_seconds_to_iso (day_start : DateTime) (seconds : ℚ) : DateTime :=
  day_start.addSeconds (ratTrunc seconds)

/-- Two-digit zero padding as produced by strftime. -/
def pad2 (n : ℕ) : String := if n < 10 then "0" ++ toString n else toString n

/-- Model of extract_time_part_iso composed with strftime H:M:S: the
    time-of-day part of the parsed reference timestamp, microseconds
    dropped, rendered as an HH:MM:SS string. -/
def extract_time_part_hms (dt : DateTime) : String :=
  pad2 dt.hour ++ ":" ++ pad2 dt.minute ++ ":" ++ pad2 dt.second

/-- Bytewise (code-point) strict comparison of character lists, the order
    sqlite BINARY collation and Python tuple comparison use on the ASCII
    strings involved here. -/
def charListLt : List Char → List Char → Bool
  | [], [] => false
  | [], _ :: _ => true
  | _ :: _, [] => false
  | a :: as, b :: bs => if a = b then charListLt as bs else decide (a.val < b.val)

/-- Strict lexicographic order on strings. -/
def strLt (a b : String) : Bool := charListLt a.data b.data

/-- Lexicographic order on strings, reflexive form. -/
def strLe (a b : String) : Bool := !(strLt b a)

/-- Python round(x, 1) idealised on rationals: nearest tenth with ties to
    even, as used for the reported walking distances. -/
def round1 (q : ℚ) : ℚ :=
  let x := q * 10
  let f : ℤ := ⌊x⌋
  let r := x - (f : ℚ)
  let n : ℤ :=
    if r < 1/2 then f
    else if 1/2 < r then f + 1
    else if f % 2 = 0 then f else f + 1
  (n : ℚ) / 10

/-- Row of the stops table.  The coordinate columns hold raw text in the
    store; float() either yields a rational or raises, so the parse
    outcome is modelled as an Option. -/
structure StopRow where
  stop_id : String
  stop_name : String
  stop_lat : Option ℚ
  stop_lon : Option ℚ
deriving DecidableEq, Repr

/-- Row of the trips table. -/
structure TripRow where
  trip_id : String
  route_id : String
  trip_headsign : Option String
deriving DecidableEq, Repr

/-- Row of the stop_times table; the two time columns hold HH:MM:SS text. -/
structure StopTimeRow where
  trip_id : String
  arrival_time : String
  departure_time : String
  stop_id : String
  stop_sequence : ℤ
deriving DecidableEq, Repr

/-- The three tables of the timetable store. -/
structure DB where
  stops : List StopRow
  trips : List TripRow
  stop_times : List StopTimeRow
deriving DecidableEq, Repr

/-- Stable insertion: x goes after every element strictly below it and
    before the first element not strictly below it.  This gives the
    ascending stable sort that both Python list.sort and the ORDER BY
    clauses used here produce. -/
def insertAsc (lt : α → α → Bool) (x : α) : List α → List α
  | [] => [x]
  | b :: bs => if lt b x then b :: insertAsc lt x bs else x :: b :: bs

/-- Ascending stable sort by the strict comparator lt. -/
def sortAsc (lt : α → α → Bool) : List α → List α
  | [] => []
  | a :: as => insertAsc lt a (sortAsc lt as)

/-- Asymmetry of a strict comparator. -/
def LtAsymm (lt : α → α → Bool) : Prop := ∀ a b, lt a b = true → lt b a = false

/-- Transitivity of the complement of a strict comparator. -/
def LtNegTrans (lt : α → α → Bool) : Prop :=
  ∀ a b c, lt a b = false → lt b c = false → lt a c = false

/-- Strict comparator on rationals. -/
def ratLtB (a b : ℚ) : Bool := decide (a < b)

/-- Strict comparator on integers. -/
def intLtB (a b : ℤ) : Bool := decide (a < b)

/-- Type of the great-circle distance collaborator
    (utils.haversine_distance_m): lat1 lon1 lat2 lon2 to meters. -/
def Hav : Type := ℚ → ℚ → ℚ → ℚ → ℚ

/-- One loop body of _fetch_candidate_stops: parse both coordinates or
    skip the row, then record the distance from the query origin. -/
def candidateOf (hav : Hav) (start_lat start_lon : ℚ) (row : StopRow) :
    Option (StopRow × ℚ × ℚ × ℚ) :=
  match row.stop_lat, row.stop_lon with
  | some lat, some lon => some (row, lat, lon, hav start_lat start_lon lat lon)
  | _, _ => none

/-- Candidate record appended by _fetch_candidate_stops. -/
structure Candidate where
  stop_id : String
  name : String
  latitude : ℚ
  longitude : ℚ
  distance_m : ℚ
deriving DecidableEq, Repr

/-- The candidate list of _fetch_candidate_stops before its final sort:
    rows in table order, coordinate parse failures skipped, kept only when
    the distance is within the radius (inclusive). -/
def unsortedCandidates (hav : Hav) (start_lat start_lon radius_m : ℚ)
    (rows : List StopRow) : List Candidate :=
  rows.filterMap fun row =>
    match candidateOf hav start_lat start_lon row with
    | some (r, lat, lon, dist) =>
      if dist ≤ radius_m then
        some { stop_id := r.stop_id, name := r.stop_name, latitude := lat,
               longitude := lon, distance_m := dist }
      else none
    | none => none

/-- Embedding of _fetch_candidate_stops: filter by radius then stable-sort
    ascending by distance. -/
def fetch_candidate_stops (hav : Hav) (start_lat start_lon radius_m : ℚ)
    (rows : List StopRow) : List Candidate :=
  sortAsc (fun x y => ratLtB x.distance_m y.distance_m)
    (unsortedCandidates hav start_lat start_lon radius_m rows)

/-- First query of _is_trip_towards_destination: the smallest
    stop_sequence of the given stop inside the given trip, if any
    (ORDER BY stop_sequence ASC LIMIT 1). -/
def minSeqOfStopInTrip (db : DB) (trip_id stop_id : String) : Option ℤ :=
  ((sortAsc (fun a b => intLtB a.stop_sequence b.stop_sequence)
      (db.stop_times.filter fun st =>
        st.trip_id = trip_id && st.stop_id = stop_id)).head?).map
    (fun r => r.stop_sequence)

/-- Inner join of stop_times rows with the stops table on stop_id;
    stop_times rows whose stop is absent from stops produce no row. -/
def joinStops (db : DB) (sts : List StopTimeRow) : List (StopTimeRow × StopRow) :=
  sts.flatMap fun st =>
    (db.stops.filter fun s => s.stop_id = st.stop_id).map fun s => (st, s)

/-- Second query of _is_trip_towards_destination: the joined visit of the
    trip with the smallest stop_sequence strictly beyond seq, if any. -/
def nextJoinedVisit (db : DB) (trip_id : String) (seq : ℤ) :
    Option (StopTimeRow × StopRow) :=
  (sortAsc (fun a b => intLtB a.1.stop_sequence b.1.stop_sequence)
    (joinStops db (db.stop_times.filter fun st =>
      st.trip_id = trip_id && decide (seq < st.stop_sequence)))).head?

/-- Embedding of _is_trip_towards_destination.  Fail-open: true when the
    boarding stop does not appear in the trip or no joined later visit
    exists.  Otherwise compare the destination distance from the next
    visited stop against that from the boarding stop (ties pass).  The
    unguarded float() on the next stop coordinates raises when they do
    not parse. -/
def is_trip_towards_destination (hav : Hav) (db : DB) (trip_id current_stop_id : String)
    (current_lat current_lon dest_lat dest_lon : ℚ) : Except String Bool :=
  match minSeqOfStopInTrip db trip_id current_stop_id with
  | none => .ok true
  | some seq =>
    match nextJoinedVisit db trip_id seq with
    | none => .ok true
    | some nxt =>
      match nxt.2.stop_lat, nxt.2.stop_lon with
      | some nlat, some nlon =>
        let current_to_dest := hav current_lat current_lon dest_lat dest_lon
        let next_to_dest := hav nlat nlon dest_lat dest_lon
        .ok (decide (next_to_dest ≤ current_to_dest))
      | _, _ => .error "ValueError: could not convert string to float"

/-- Per-stop departure query of query_closest_departures: rows of
    stop_times at the stop departing at or after the reference time of
    day (text comparison), joined with trips, ordered by departure time
    ascending, limited to three. -/
def stopDepartureRows (db : DB) (stop_id time_part : String) :
    List (StopTimeRow × TripRow) :=
  (sortAsc (fun a b => strLt a.1.departure_time b.1.departure_time)
    ((db.stop_times.filter fun st =>
        st.stop_id = stop_id && strLe time_part st.departure_time).flatMap
      fun st => (db.trips.filter fun t => t.trip_id = st.trip_id).map
        fun t => (st, t))).take 3

/-- Stop part of a departure record. -/
structure DepartureStop where
  name : String
  latitude : ℚ
  longitude : ℚ
  arrival_time : DateTime
  departure_time : DateTime
  walking_distance_m : ℚ
deriving DecidableEq, Repr

/-- Departure record emitted by query_closest_departures. -/
structure Departure where
  trip_id : String
  route_id : String
  trip_headsign : Option String
  stop : DepartureStop
deriving DecidableEq, Repr

/-- Record construction of query_closest_departures for one matched row:
    both stored HH:MM:SS times are reattached to the reference date with
    combine_date_and_hms, whose ValueError propagates. -/
def emitDeparture (startT : DateTime) (stop : Candidate) (row : StopTimeRow × TripRow) :
    Except String Departure := do
  let arrival_iso ← combine_date_and_hms startT row.1.arrival_time
  let departure_iso ← combine_date_and_hms startT row.1.departure_time
  .ok { trip_id := row.1.trip_id
        route_id := row.2.route_id
        trip_headsign := row.2.trip_headsign
        stop := { name := stop.name, latitude := stop.latitude,
                  longitude := stop.longitude, arrival_time := arrival_iso,
                  departure_time := departure_iso,
                  walking_distance_m := round1 stop.distance_m } }

/-- Inner row loop of query_closest_departures: stop at the limit, skip
    rows failing the direction filter, append emitted records; exceptions
    from the filter or the record construction propagate. -/
def processRows (hav : Hav) (db : DB) (dest_lat dest_lon : ℚ) (startT : DateTime)
    (limit : ℕ) (stop : Candidate) :
    List (StopTimeRow × TripRow) → List Departure → Except String (List Departure)
  | [], acc => .ok acc
  | row :: rest, acc =>
    if limit ≤ acc.length then .ok acc
    else
      match is_trip_towards_destination hav db row.1.trip_id row.1.stop_id
          stop.latitude stop.longitude dest_lat dest_lon with
      | .error e => .error e
      | .ok false => processRows hav db dest_lat dest_lon startT limit stop rest acc
      | .ok true =>
        match emitDeparture startT stop row with
        | .error e => .error e
        | .ok d => processRows hav db dest_lat dest_lon startT limit stop rest (acc ++ [d])

/-- Outer candidate-stop loop of query_closest_departures, nearest first. -/
def processStops (hav : Hav) (db : DB) (dest_lat dest_lon : ℚ) (startT : DateTime)
    (time_part : String) (limit : ℕ) :
    List Candidate → List Departure → Except String (List Departure)
  | [], acc => .ok acc
  | stop :: rest, acc =>
    if limit ≤ acc.length then .ok acc
    else
      match processRows hav db dest_lat dest_lon startT limit stop
          (stopDepartureRows db stop.stop_id time_part) acc with
      | .error e => .error e
      | .ok acc2 => processStops hav db dest_lat dest_lon startT time_part limit rest acc2

/-- Embedding of query_closest_departures.  The reference timestamp is
    already parsed (the HTTP layer validates it); limit is the collected
    record bound (a Python int; non-positive values yield the empty list
    exactly as the source loop does). -/
def query_closest_departures (hav : Hav) (db : DB)
    (start_lat start_lon dest_lat dest_lon : ℚ) (startT : DateTime)
    (limit : ℕ) (radius_m : ℚ) : Except String (List Departure) :=
  let time_part := extract_time_part_hms startT
  let candidate_stops := fetch_candidate_stops hav start_lat start_lon radius_m db.stops
  processStops hav db dest_lat dest_lon startT time_part limit candidate_stops []

/-- Per-stop record kept by compute_best_route after coordinate parsing. -/
structure StopInfo where
  stop_id : String
  name : String
  lat : ℚ
  lon : ℚ
deriving DecidableEq, Repr

/-- Python dict assignment: an existing key keeps its insertion position
    and gets the new value; a new key is appended. -/
def upsertStop (l : List (String × StopInfo)) (k : String) (v : StopInfo) :
    List (String × StopInfo) :=
  if l.any fun p => p.1 = k then l.map fun p => if p.1 = k then (k, v) else p
  else l ++ [(k, v)]

/-- The stops dict of compute_best_route: table order, coordinate parse
    failures skipped. -/
def stopsMap (rows : List StopRow) : List (String × StopInfo) :=
  rows.foldl
    (fun m row =>
      match row.stop_lat, row.stop_lon with
      | some lat, some lon =>
        upsertStop m row.stop_id ⟨row.stop_id, row.stop_name, lat, lon⟩
      | _, _ => m)
    []

/-- Dict lookup in an association list. -/
def lookupStop (m : List (String × StopInfo)) (k : String) : Option StopInfo :=
  (m.find? fun p => p.1 = k).map fun p => p.2

/-- Walking candidates near the origin: (stop_id, distance) for every
    stop within max_walk_m, in stops-dict iteration order. -/
def originCandidates (hav : Hav) (start_lat start_lon max_walk_m : ℚ)
    (m : List (String × StopInfo)) : List (String × ℚ) :=
  m.filterMap fun p =>
    let d := hav start_lat start_lon p.2.lat p.2.lon
    if d ≤ max_walk_m then some (p.1, d) else none

/-- Walking candidates near the destination (the dest_walk dict), in
    stops-dict iteration order. -/
def destWalkList (hav : Hav) (dest_lat dest_lon max_walk_m : ℚ)
    (m : List (String × StopInfo)) : List (String × ℚ) :=
  m.filterMap fun p =>
    let d := hav dest_lat dest_lon p.2.lat p.2.lon
    if d ≤ max_walk_m then some (p.1, d) else none

/-- Lookup in the dest_walk dict. -/
def destWalkLookup (l : List (String × ℚ)) (s : String) : Option ℚ :=
  (l.find? fun p => p.1 = s).map fun p => p.2

/-- Transit edge between consecutive stop visits of one trip. -/
structure Edge where
  trip_id : String
  to_stop_id : String
  dep_sec : ℚ
  arr_sec : ℚ
deriving DecidableEq, Repr

/-- ORDER BY trip_id, stop_sequence comparator. -/
def stLtB (a b : StopTimeRow) : Bool :=
  strLt a.trip_id b.trip_id ||
    (a.trip_id = b.trip_id && intLtB a.stop_sequence b.stop_sequence)

/-- The stop_times scan of compute_best_route, ordered by trip then
    sequence. -/
def orderedStopTimes (db : DB) : List StopTimeRow := sortAsc stLtB db.stop_times

/-- One iteration of the edge-building loop: adjacent rows of the same
    trip yield an edge, skipped when either stop is missing from the
    stops dict, a time fails to parse, or the arrival precedes the
    departure. -/
def edgeOf (m : List (String × StopInfo)) (prev_row row : StopTimeRow) :
    Option (String × Edge) :=
  if row.trip_id = prev_row.trip_id then
    if (lookupStop m prev_row.stop_id).isSome && (lookupStop m row.stop_id).isSome then
      match gtfs_time_to_seconds prev_row.departure_time,
          gtfs_time_to_seconds row.arrival_time with
      | .ok dep, .ok arr =>
        if arr < dep then none
        else some (prev_row.stop_id, ⟨row.trip_id, row.stop_id, (dep : ℚ), (arr : ℚ)⟩)
      | _, _ => none
    else none
  else none

/-- The full edge list in append order, keyed by the from-stop: this is
    the defaultdict edges_by_stop flattened, with per-stop order
    preserved. -/
def buildEdgeList (m : List (String × StopInfo)) : List StopTimeRow → List (String × Edge)
  | [] => []
  | [_] => []
  | a :: b :: rest =>
    (match edgeOf m a b with
     | some e => [e]
     | none => []) ++ buildEdgeList m (b :: rest)

/-- edges_by_stop.get(stop_id, []): outgoing edges of a stop in append
    order. -/
def edgesFor (edges : List (String × Edge)) (s : String) : List Edge :=
  (edges.filter fun p => p.1 = s).map fun p => p.2

/-- Predecessor record stored by the search for one stop. -/
structure Step where
  prev_stop_id : Option String
  trip_id : Option String
  dep_time_sec : ℚ
  arr_time_sec : ℚ
  mode : String
  walk_distance_m : Option ℚ
deriving DecidableEq, Repr

/-- The infinity sentinel of the search, 10 to the 15th (a plain number
    in the source). -/
def INF : ℚ := 1000000000000000

/-- The floating comparison tolerance of the search. -/
def eps : ℚ := 1 / 1000000

/-- Pointwise function update standing for dict assignment.  best_time is
    initialised to INF for every stop and only ever read at stop ids of
    the graph, so the total-function model with default INF is faithful. -/
def updFn (f : String → α) (k : String) (v : α) : String → α :=
  fun s => if s = k then v else f s

/-- State of the earliest-arrival search. -/
structure SearchState where
  best : String → ℚ
  prev : String → Option Step
  pq : List (ℚ × String)
  bestDest : ℚ
  bestDestStop : Option String

/-- Rational equality expressed through the strict order (equivalent on
    the total order of the rationals). -/
def ratEqB (a b : ℚ) : Bool := !(ratLtB a b) && !(ratLtB b a)

/-- Python tuple comparison on heap entries (arrival seconds, stop id). -/
def keyLt (a b : ℚ × String) : Bool :=
  ratLtB a.1 b.1 || (ratEqB a.1 b.1 && strLt a.2 b.2)

/-- Entry equality for heap entries, through the same comparisons. -/
def keyEqB (a b : ℚ × String) : Bool := ratEqB a.1 b.1 && a.2 = b.2

/-- Remove the first occurrence of an element. -/
def removeFirst (x : ℚ × String) : List (ℚ × String) → List (ℚ × String)
  | [] => []
  | y :: ys => if keyEqB y x then ys else y :: removeFirst x ys

/-- heapq.heappop: extract the minimum entry under tuple comparison.  A
    binary heap pops the exact minimum of its contents, so a list holding
    the same multiset of entries pops the same sequence of entries. -/
def popMin (l : List (ℚ × String)) : Option ((ℚ × String) × List (ℚ × String)) :=
  match l with
  | [] => none
  | x :: xs =>
    let m := xs.foldl (fun m y => if keyLt y m then y else m) x
    some (m, removeFirst m l)

/-- The state before seeding: every label at the infinity sentinel, no
    predecessors, empty queue, no destination arrival. -/
def emptySearchState : SearchState :=
  { best := fun _ => INF, prev := fun _ => none, pq := [],
    bestDest := INF, bestDestStop := none }

/-- One iteration of the seeding loop: walk from the origin to the
    candidate stop, record label and predecessor, push the stop. -/
def seedStep (start_sec walk_speed : ℚ) (st : SearchState) (cand : String × ℚ) :
    SearchState :=
  let walk_sec := cand.2 / walk_speed
  let arrival_sec := start_sec + walk_sec
  if arrival_sec < st.best cand.1 then
    { st with
      best := updFn st.best cand.1 arrival_sec
      prev := updFn st.prev cand.1
        (some ⟨none, none, start_sec, arrival_sec, "walk_start", some cand.2⟩)
      pq := (arrival_sec, cand.1) :: st.pq }
  else st

/-- Seeding loop of the search over the origin walking candidates. -/
def initSearch (origin_candidates : List (String × ℚ)) (start_sec walk_speed : ℚ) :
    SearchState :=
  origin_candidates.foldl (seedStep start_sec walk_speed) emptySearchState

/-- Relaxation of one outgoing transit edge of the popped stop: skip the
    edge when its departure precedes the popped arrival time by more than
    the tolerance; otherwise update the target label when the edge
    arrival improves it, recording the predecessor and pushing the
    target. -/
def relaxEdge (stop_id : String) (current_time : ℚ) (st : SearchState) (e : Edge) :
    SearchState :=
  if e.dep_sec < current_time - eps then st
  else if e.arr_sec < st.best e.to_stop_id then
    { st with
      best := updFn st.best e.to_stop_id e.arr_sec
      prev := updFn st.prev e.to_stop_id
        (some ⟨some stop_id, some e.trip_id, e.dep_sec, e.arr_sec, "ride", none⟩)
      pq := (e.arr_sec, e.to_stop_id) :: st.pq }
  else st

/-- Search context: the dest_walk dict, the adjacency and the walking
    speed. -/
structure SearchCtx where
  destWalk : String → Option ℚ
  edges : String → List Edge
  walk_speed : ℚ

/-- Main loop of the earliest-arrival search.  One fuel unit is one loop
    iteration (one pop); compute_best_route passes fuel exceeding the
    total number of pushes, which is bounded because every push follows a
    strict label decrease inside a finite value set. -/
def searchLoop (ctx : SearchCtx) : ℕ → SearchState → SearchState
  | 0, st => st
  | n + 1, st =>
    match popMin st.pq with
    | none => st
    | some ((current_time, stop_id), rest) =>
      let st1 := { st with pq := rest }
      if st1.best stop_id + eps < current_time then searchLoop ctx n st1
      else
        let st2 :=
          match ctx.destWalk stop_id with
          | some d =>
            let total := current_time + d / ctx.walk_speed
            if total < st1.bestDest then
              { st1 with bestDest := total, bestDestStop := some stop_id }
            else st1
          | none => st1
        if st2.bestDest < current_time then st2
        else searchLoop ctx n ((ctx.edges stop_id).foldl (relaxEdge stop_id current_time) st2)

/-- Fuel passed to the search loop; see searchLoop. -/
def searchFuel (db : DB) : ℕ :=
  (db.stops.length + 1) * (db.stops.length + db.stop_times.length + 2)

/-- Reconstructed segment: a predecessor step tagged with the stop it
    reaches. -/
structure Seg extends Step where
  to_stop_id : String
deriving DecidableEq, Repr

/-- Backward walk over predecessor links, destination first.  The source
    loops (while True) until it meets a missing predecessor entry or the
    walk-from-origin root; that loop need not terminate, because the
    1e-6 tolerance lets a stop's label improve after the stop was
    already recorded as another stop's predecessor, closing a
    predecessor cycle.  The unrolling is therefore fuel-indexed with a
    distinct exhaustion outcome: none means no root was met within the
    given number of steps.  A root, once met at some fuel, is met at
    every larger fuel with the same chain, so the source loop
    terminates with a chain exactly when some fuel returns it, and
    runs forever exactly when every fuel returns none. -/
def reconstructBack (prev : String → Option Step) : ℕ → String → Option (List Seg)
  | 0, _ => none
  | n + 1, cur =>
    match prev cur with
    | none => some []
    | some step =>
      let seg : Seg := { step with to_stop_id := cur }
      match step.prev_stop_id with
      | none => some [seg]
      | some p => (reconstructBack prev n p).map fun l => seg :: l

/-- The reconstructed segment chain in forward order, under the same
    fuel-indexed exhaustion outcome. -/
def reconstructSegments (prev : String → Option Step) (fuel : ℕ) (cur : String) :
    Option (List Seg) :=
  (reconstructBack prev fuel cur).map List.reverse

/-- Output leg.  Display-only name and coordinate fields of the source
    dicts are omitted; stops are identified by id. -/
inductive Leg where
  | walk (from_stop to_stop : Option String) (distance_m : ℚ)
      (start_time arrival_time : DateTime)
  | ride (trip_id : String) (route_id trip_headsign : Option String)
      (from_stop to_stop : String) (boarding_time arrival_time : DateTime)
      (num_stops : ℕ)
deriving DecidableEq, Repr

/-- Trip metadata dict: a comprehension over the trips table, so a
    duplicated trip_id keeps the last row. -/
def tripMeta (trips : List TripRow) (trip_id : String) : Option TripRow :=
  trips.reverse.find? fun t => t.trip_id = trip_id

/-- Ride leg under construction. -/
structure RideLeg where
  trip_id : String
  route_id : Option String
  trip_headsign : Option String
  from_stop : String
  to_stop : String
  boarding_time : DateTime
  arrival_time : DateTime
  num_stops : ℕ
deriving DecidableEq, Repr

/-- Conversion of a finished ride leg to an output leg. -/
def RideLeg.toLeg (r : RideLeg) : Leg :=
  .ride r.trip_id r.route_id r.trip_headsign r.from_stop r.to_stop
    r.boarding_time r.arrival_time r.num_stops

/-- Fresh ride leg for a segment opening a new trip (ride segments always
    carry a trip id and a predecessor stop; the defaults are never
    read). -/
def newRideLeg (day_start : DateTime) (meta : String → Option TripRow) (seg : Seg) :
    RideLeg :=
  let trip_id := seg.trip_id.getD ""
  { trip_id := trip_id
    route_id := (meta trip_id).map fun t => t.route_id
    trip_headsign := (meta trip_id).bind fun t => t.trip_headsign
    from_stop := seg.prev_stop_id.getD ""
    to_stop := seg.to_stop_id
    boarding_time := day_start_plus_seconds_to_iso day_start seg.dep_time_sec
    arrival_time := day_start_plus_seconds_to_iso day_start seg.arr_time_sec
    num_stops := 1 }

/-- One iteration of the ride-leg grouping loop: non-ride segments are
    skipped; a segment continuing the current trip extends the current
    leg (new alighting stop and time, stop count incremented once); any
    other ride segment finishes the current leg and opens a new one. -/
def rideStep (day_start : DateTime) (meta : String → Option TripRow)
    (acc : List RideLeg × Option RideLeg) (seg : Seg) :
    List RideLeg × Option RideLeg :=
  if seg.mode = "ride" then
    match acc.2 with
    | some cur =>
      if cur.trip_id = seg.trip_id.getD "" then
        (acc.1,
         some { cur with
                to_stop := seg.to_stop_id
                arrival_time := day_start_plus_seconds_to_iso day_start seg.arr_time_sec
                num_stops := cur.num_stops + 1 })
      else (acc.1 ++ [cur], some (newRideLeg day_start meta seg))
    | none => (acc.1, some (newRideLeg day_start meta seg))
  else acc

/-- The ride legs produced from a segment list, in order: the grouping
    fold followed by flushing the leg still under construction (the
    source mutates the list element in place; finished plus current is
    the same list). -/
def rideLegsOf (day_start : DateTime) (meta : String → Option TripRow)
    (segs : List Seg) : List RideLeg :=
  let acc := segs.foldl (rideStep day_start meta) ([], none)
  acc.1 ++ acc.2.toList

/-- The ride legs as output legs. -/
def buildRideLegs (day_start : DateTime) (meta : String → Option TripRow)
    (segs : List Seg) : List Leg :=
  (rideLegsOf day_start meta segs).map RideLeg.toLeg

/-- The search state compute_best_route ends with: seeds from the origin
    walking candidates, transit edges from the ordered stop_times scan,
    destination walking bounds from the dest_walk dict. -/
def routeSearchState (hav : Hav) (db : DB)
    (start_lat start_lon dest_lat dest_lon : ℚ) (startT : DateTime)
    (max_walk_m walk_speed : ℚ) : SearchState :=
  let m := stopsMap db.stops
  let origin_candidates := originCandidates hav start_lat start_lon max_walk_m m
  let dest_walk := destWalkList hav dest_lat dest_lon max_walk_m m
  let edges := buildEdgeList m (orderedStopTimes db)
  let ctx : SearchCtx := ⟨destWalkLookup dest_walk, edgesFor edges, walk_speed⟩
  searchLoop ctx (searchFuel db)
    (initSearch origin_candidates ((iso_day_start_and_seconds startT).2 : ℚ) walk_speed)

/-- Route returned by compute_best_route. -/
structure Route where
  start_time : DateTime
  arrival_time : DateTime
  total_travel_time_sec : ℤ
  legs : List Leg
deriving DecidableEq, Repr

/-- Assembly of the returned value from a reconstructed chain: an empty
    chain yields no route; otherwise the optional walk-in leg, the
    grouped ride legs and the final walk-out leg. -/
def routeOfSegments (day_start : DateTime) (startT : DateTime) (start_sec : ℚ)
    (meta : String → Option TripRow) (dest_walk : List (String × ℚ))
    (stF : SearchState) (best_stop : String) : List Seg → Option Route
  | [] => none
  | seg0 :: segRest =>
    let firstWalk : List Leg :=
      if seg0.mode = "walk_start" then
        [Leg.walk none (some seg0.to_stop_id) (round1 (seg0.walk_distance_m.getD 0))
          (day_start_plus_seconds_to_iso day_start seg0.dep_time_sec)
          (day_start_plus_seconds_to_iso day_start seg0.arr_time_sec)]
      else []
    let rideSegs := if seg0.mode = "walk_start" then segRest else seg0 :: segRest
    let rides := buildRideLegs day_start meta rideSegs
    let finalWalk : Leg :=
      Leg.walk (some best_stop) none
        (round1 ((destWalkLookup dest_walk best_stop).getD 0))
        (day_start_plus_seconds_to_iso day_start (stF.best best_stop))
        (day_start_plus_seconds_to_iso day_start stF.bestDest)
    some { start_time := startT
           arrival_time := day_start_plus_seconds_to_iso day_start stF.bestDest
           total_travel_time_sec := ratTrunc (stF.bestDest - start_sec)
           legs := firstWalk ++ rides ++ [finalWalk] }

/-- Embedding of compute_best_route: load and parse stops, compute the
    walking candidate sets, build the transit edges, run the
    earliest-arrival search, then reconstruct and group the result into
    legs.  The reference timestamp arrives parsed (the callers validate
    it).  rec_fuel unrolls the reconstruction while-loop, whose source
    form need not terminate (see reconstructBack): some none renders
    the source returning None, some (some r) the source returning the
    route r — both fuel-independent once the unrolling suffices — and
    none means no root was met within rec_fuel steps, so the source run
    diverges exactly when every rec_fuel yields none. -/
def compute_best_route (hav : Hav) (db : DB)
    (start_lat start_lon dest_lat dest_lon : ℚ) (startT : DateTime)
    (max_walk_m walk_speed : ℚ) (rec_fuel : ℕ) : Option (Option Route) :=
  if db.stops = [] then some none
  else
  let m := stopsMap db.stops
  if m = [] then some none
  else
  let origin_candidates := originCandidates hav start_lat start_lon max_walk_m m
  let dest_walk := destWalkList hav dest_lat dest_lon max_walk_m m
  if origin_candidates = [] ∨ dest_walk = [] then some none
  else
  let edges := buildEdgeList m (orderedStopTimes db)
  if edges = [] then some none
  else
  let ds := iso_day_start_and_seconds startT
  let stF := routeSearchState hav db start_lat start_lon dest_lat dest_lon startT
    max_walk_m walk_speed
  match stF.bestDestStop with
  | none => some none
  | some best_stop =>
    if INF ≤ stF.bestDest then some none
    else
    (reconstructSegments stF.prev rec_fuel best_stop).map
      (routeOfSegments ds.1 startT (ds.2 : ℚ) (tripMeta db.trips) dest_walk stF
        best_stop)

/-- Run-length encoding of a key list: one (key, length) pair per maximal
    run of equal adjacent keys.  This states the ride-leg merging claim;
    it is not part of the embedding. -/
def rleKeys : List String → List (String × ℕ)
  | [] => []
  | k :: rest =>
    match rleKeys rest with
    | [] => [(k, 1)]
    | (k2, n) :: gs => if k = k2 then (k, n + 1) :: gs else (k, 1) :: (k2, n) :: gs

/-- Merge a pending run into a run-length encoding from the left. -/
def mergeRun (cur : Option (String × ℕ)) (r : List (String × ℕ)) : List (String × ℕ) :=
  match cur with
  | none => r
  | some (k, n) =>
    match r with
    | [] => [(k, n)]
    | (k2, m) :: gs => if k = k2 then (k, n + m) :: gs else (k, n) :: (k2, m) :: gs

/-- Key of a ride leg for the merging claim: its trip and stop count. -/
def RideLeg.runKey (r : RideLeg) : String × ℕ := (r.trip_id, r.num_stops)

/-- The trip ids of the ride segments of a chain, in order. -/
def rideTripIds (segs : List Seg) : List String :=
  (segs.filter fun s => s.mode = "ride").map fun s => s.trip_id.getD ""

/-- Taxicab-style distance on scaled coordinates, used as the distance
    collaborator of the concrete instances below; at each input actually
    exercised it agrees with great-circle distances realisable by placing
    the points accordingly. -/
def gridDist : Hav := fun a b c d =>
  (if c - a < 0 then a - c else c - a) * 100000 +
    (if d - b < 0 then b - d else d - b) * 100000

/-- Reference timestamp of the concrete instances: 07:59:00 on an
    arbitrary service day. -/
def refT : DateTime := ⟨100, 7, 59, 0, 0⟩

/-- Timetable whose only stop visit carries the hour field 25, as the
    GTFS data model permits for services running past midnight. -/
def dbHour25 : DB :=
  { stops := [⟨"A", "Stop A", some 0, some 0⟩]
    trips := [⟨"T1", "R1", none⟩]
    stop_times := [⟨"T1", "25:00:00", "25:00:00", "A", 1⟩] }

/-- Timetable with a stop but no stop-visit pair, hence no transit edge. -/
def dbNoEdges : DB :=
  { stops := [⟨"A", "Stop A", some 0, some 0⟩]
    trips := []
    stop_times := [] }

/-- Timetable holding one transit edge between two far stops, while stop
    A sits at the origin, 100 meters from the destination. -/
def dbWalkOnly : DB :=
  { stops := [⟨"A", "Stop A", some 0, some 0⟩, ⟨"X", "Stop X", some 50, some 50⟩,
              ⟨"Y", "Stop Y", some 50, some 51⟩]
    trips := [⟨"T9", "R9", none⟩]
    stop_times := [⟨"T9", "08:00:00", "08:00:00", "X", 1⟩,
                   ⟨"T9", "08:10:00", "08:10:00", "Y", 2⟩] }

/-- Two-stop trip used by several witnesses: A then B, with B one
    longitude unit (100000 distance units) east. -/
def dbTwoStops : DB :=
  { stops := [⟨"A", "Stop A", some 0, some 0⟩, ⟨"B", "Stop B", some 0, some 1⟩]
    trips := [⟨"T1", "R1", none⟩]
    stop_times := [⟨"T1", "08:00:00", "08:00:00", "A", 1⟩,
                   ⟨"T1", "08:10:00", "08:10:00", "B", 2⟩] }

/-- Reference timestamp 08:00:00 used by the predecessor-cycle
    instance. -/
def refT8 : DateTime := ⟨100, 8, 0, 0, 0⟩

/-- Timetable on which the search builds a predecessor cycle.  Stop U
    sits a fraction of a millimetre east of the origin (and exactly at
    the destination), V far away; two trips connect U to V and V back
    to U, all four visits at 08:00:00.  The walk-in seed reaches U just
    after 28800 s, within the tolerance of the 28800 departures: the
    run relaxes U to V at 28800, then V back to U at 28800, improving
    U's label, so U's predecessor ends up pointing at V while V's
    points at U. -/
def dbCycle : DB :=
  { stops := [⟨"U", "Stop U", some 0, some (1 / 100000000000)⟩,
              ⟨"V", "Stop V", some 50, some 50⟩]
    trips := [⟨"T1", "R1", none⟩, ⟨"T2", "R2", none⟩]
    stop_times := [⟨"T1", "08:00:00", "08:00:00", "U", 1⟩,
                   ⟨"T1", "08:00:00", "08:00:00", "V", 2⟩,
                   ⟨"T2", "08:00:00", "08:00:00", "V", 1⟩,
                   ⟨"T2", "08:00:00", "08:00:00", "U", 2⟩] }

/-- Bookkeeping invariant of the search: every queued stop, and the
    recorded best destination stop, has a predecessor entry. -/
def PrevInv (st : SearchState) : Prop :=
  (∀ p ∈ st.pq, (st.prev p.2).isSome = true) ∧
  (∀ s, st.bestDestStop = some s → (st.prev s).isSome = true)

/- ===================== Theorems ===================== -/

theorem insertAsc_perm (lt : α → α → Bool) (x : α) (l : List α) :
    (insertAsc lt x l).Perm (x :: l) := by
  induction l with
  | nil => simp [insertAsc]
  | cons b bs ih =>
    by_cases h : lt b x = true
    · simpa [insertAsc, h] using (ih.cons b).trans (List.Perm.swap x b bs)
    · simp [insertAsc, h]

theorem sortAsc_perm (lt : α → α → Bool) (l : List α) : (sortAsc lt l).Perm l := by
  induction l with
  | nil => simp [sortAsc]
  | cons a as ih => exact (insertAsc_perm lt a (sortAsc lt as)).trans (ih.cons a)

theorem mem_sortAsc (lt : α → α → Bool) (l : List α) (x : α) :
    x ∈ sortAsc lt l ↔ x ∈ l :=
  (sortAsc_perm lt l).mem_iff

theorem insertAsc_pairwise (lt : α → α → Bool) (hA : LtAsymm lt) (hN : LtNegTrans lt)
    (x : α) (l : List α) (hl : l.Pairwise (fun a b => lt b a = false)) :
    (insertAsc lt x l).Pairwise (fun a b => lt b a = false) := by
  induction l with
  | nil => simp [insertAsc]
  | cons b bs ih =>
    rcases List.pairwise_cons.mp hl with ⟨hb, hbs⟩
    by_cases h : lt b x = true
    · rw [insertAsc, if_pos h]
      refine List.pairwise_cons.mpr ⟨?_, ih hbs⟩
      intro y hy
      rcases List.mem_cons.mp ((insertAsc_perm lt x bs).mem_iff.mp hy) with rfl | hy
      · exact hA _ _ h
      · exact hb y hy
    · rw [insertAsc, if_neg h]
      refine List.pairwise_cons.mpr ⟨?_, hl⟩
      intro y hy
      rcases List.mem_cons.mp hy with rfl | hy
      · exact Bool.eq_false_iff.mpr h
      · exact hN y b x (hb y hy) (Bool.eq_false_iff.mpr h)

theorem sortAsc_pairwise (lt : α → α → Bool) (hA : LtAsymm lt) (hN : LtNegTrans lt)
    (l : List α) : (sortAsc lt l).Pairwise (fun a b => lt b a = false) := by
  induction l with
  | nil => simp [sortAsc]
  | cons a as ih => exact insertAsc_pairwise lt hA hN a (sortAsc lt as) ih

theorem insertAsc_filter (lt : α → α → Bool) (p : α → Bool)
    (hp : ∀ a b, p a = true → p b = true → lt a b = false) (x : α) (l : List α) :
    (insertAsc lt x l).filter p = ((x :: l).filter p) := by
  induction l with
  | nil => simp [insertAsc]
  | cons b bs ih =>
    by_cases h : lt b x = true
    · rw [insertAsc, if_pos h]
      by_cases hpb : p b = true
      · by_cases hpx : p x = true
        · exact absurd (hp b x hpb hpx) (by simp [h])
        · simp [List.filter, hpb, hpx] at ih ⊢
          rw [ih]
      · simp [List.filter, hpb] at ih ⊢
        rw [ih]
    · rw [insertAsc, if_neg h]

theorem sortAsc_filter (lt : α → α → Bool) (p : α → Bool)
    (hp : ∀ a b, p a = true → p b = true → lt a b = false) (l : List α) :
    (sortAsc lt l).filter p = l.filter p := by
  induction l with
  | nil => simp [sortAsc]
  | cons a as ih =>
    rw [sortAsc, insertAsc_filter lt p hp a (sortAsc lt as)]
    simp only [List.filter]
    cases p a <;> simp [ih]

theorem ratLtB_asymm : LtAsymm ratLtB := by
  intro a b h
  simp [ratLtB] at h ⊢
  linarith

theorem ratLtB_negTrans : LtNegTrans ratLtB := by
  intro a b c h1 h2
  simp [ratLtB] at h1 h2 ⊢
  linarith

theorem intLtB_asymm : LtAsymm intLtB := by
  intro a b h
  simp [intLtB] at h ⊢
  omega

theorem intLtB_negTrans : LtNegTrans intLtB := by
  intro a b c h1 h2
  simp [intLtB] at h1 h2 ⊢
  omega

/-- C4: converting a GTFS HH:MM:SS string yields h*3600 + m*60 + s
    seconds since midnight with no modulo applied, so hours of 24 or
    more give values of 86400 or more ("08:05:30" yields 29130 and
    "25:00:00" yields 90000); and rendering 90000 seconds against a
    day-start anchor yields a timestamp exactly 1 day + 1 hour after
    that midnight. -/
theorem gtfs_seconds_no_modulo :
    (∀ (hms : String) (h m s : ℤ),
        (splitOnColon hms.data).map pyInt = [some h, some m, some s] →
        gtfs_time_to_seconds hms = .ok (h * 3600 + m * 60 + s)) ∧
    (∀ (hms : String) (h m s : ℤ),
        (splitOnColon hms.data).map pyInt = [some h, some m, some s] →
        24 ≤ h → 0 ≤ m → 0 ≤ s →
        ∃ v, gtfs_time_to_seconds hms = .ok v ∧ 86400 ≤ v) ∧
    gtfs_time_to_seconds "08:05:30" = .ok 29130 ∧
    gtfs_time_to_seconds "25:00:00" = .ok 90000 ∧
    ∀ day : ℤ, day_start_plus_seconds_to_iso ⟨day, 0, 0, 0, 0⟩ 90000 =
      ⟨day + 1, 1, 0, 0, 0⟩ := by
  have key : ∀ (hms : String) (h m s : ℤ),
      (splitOnColon hms.data).map pyInt = [some h, some m, some s] →
      gtfs_time_to_seconds hms = .ok (h * 3600 + m * 60 + s) := by
    intro hms h m s hparse
    have hlen : (splitOnColon hms.data).length = 3 := by
      have := congrArg List.length hparse
      simpa using this
    simp [gtfs_time_to_seconds, hlen, hparse]
  refine ⟨key, ?_, by decide, by decide, ?_⟩
  · intro hms h m s hparse hh hm hs
    refine ⟨h * 3600 + m * 60 + s, key hms h m s hparse, ?_⟩
    nlinarith
  · intro day
    show DateTime.addSeconds ⟨day, 0, 0, 0, 0⟩ (ratTrunc 90000) = ⟨day + 1, 1, 0, 0, 0⟩
    have h1 : ratTrunc (90000 : ℚ) = 90000 := by
      rw [ratTrunc, if_pos (by norm_num)]
      rw [show ((90000 : ℚ)) = ((90000 : ℤ) : ℚ) by norm_num, Int.floor_intCast]
    rw [h1]
    simp only [DateTime.addSeconds]
    norm_num
    constructor
    · rw [show ((90000 : ℤ).fdiv 86400) = 1 by decide]
    · decide

/-- Witness for gtfs_seconds_no_modulo at the concrete strings of the
    claim. -/
theorem gtfs_seconds_no_modulo_witness :
    gtfs_time_to_seconds "08:05:30" = .ok (8 * 3600 + 5 * 60 + 30) ∧
    (∃ v, gtfs_time_to_seconds "25:00:00" = .ok v ∧ 86400 ≤ v) :=
  ⟨gtfs_seconds_no_modulo.1 "08:05:30" 8 5 30 (by decide),
   gtfs_seconds_no_modulo.2.1 "25:00:00" 25 0 0 (by decide) (by norm_num)
     (by norm_num) (by norm_num)⟩

/-- C6: during relaxation of a popped stop, an outgoing transit edge is
    skipped exactly when its departure time is below the popped arrival
    time minus the 1e-6 second tolerance; an edge departing no earlier
    than that bound (in particular exactly at the popped arrival time) is
    considered, and is relaxed precisely when its arrival improves the
    target label. -/
theorem relax_catchable_iff :
    ∀ (stop_id : String) (t : ℚ) (st : SearchState) (e : Edge),
      (e.dep_sec < t - eps → relaxEdge stop_id t st e = st) ∧
      (t - eps ≤ e.dep_sec → ¬ e.arr_sec < st.best e.to_stop_id →
        relaxEdge stop_id t st e = st) ∧
      (t - eps ≤ e.dep_sec → e.arr_sec < st.best e.to_stop_id →
        relaxEdge stop_id t st e =
          { st with
            best := updFn st.best e.to_stop_id e.arr_sec
            prev := updFn st.prev e.to_stop_id
              (some ⟨some stop_id, some e.trip_id, e.dep_sec, e.arr_sec, "ride", none⟩)
            pq := (e.arr_sec, e.to_stop_id) :: st.pq }) := by
  intro stop_id t st e
  refine ⟨fun h => ?_, fun h h2 => ?_, fun h h2 => ?_⟩
  · rw [relaxEdge, if_pos h]
  · rw [relaxEdge, if_neg (not_lt.mpr h), if_neg h2]
  · rw [relaxEdge, if_neg (not_lt.mpr h), if_pos h2]

/-- Witness for relax_catchable_iff: an edge departing exactly at the
    popped arrival time is relaxed. -/
theorem relax_catchable_iff_witness :
    ((10 : ℚ) - eps ≤ 10) ∧ ((5 : ℚ) < INF) ∧
    (relaxEdge "A" 10 ⟨fun _ => INF, fun _ => none, [], INF, none⟩
        ⟨"T", "B", 10, 5⟩).pq = [(5, "B")] := by
  refine ⟨by norm_num [eps], by norm_num [INF], ?_⟩
  rw [(relax_catchable_iff "A" 10 ⟨fun _ => INF, fun _ => none, [], INF, none⟩
    ⟨"T", "B", 10, 5⟩).2.2 (by norm_num [eps]) (by norm_num [INF])]

theorem mem_unsortedCandidates (hav : Hav) (lat lon radius : ℚ)
    (rows : List StopRow) (c : Candidate) :
    c ∈ unsortedCandidates hav lat lon radius rows ↔
      ∃ row ∈ rows, ∃ la lo, row.stop_lat = some la ∧ row.stop_lon = some lo ∧
        hav lat lon la lo ≤ radius ∧
        c = ⟨row.stop_id, row.stop_name, la, lo, hav lat lon la lo⟩ := by
  unfold unsortedCandidates
  rw [List.mem_filterMap]
  constructor
  · rintro ⟨row, hrow, hf⟩
    refine ⟨row, hrow, ?_⟩
    rcases hla : row.stop_lat with _ | la
    · simp [candidateOf, hla] at hf
    rcases hlo : row.stop_lon with _ | lo
    · simp [candidateOf, hla, hlo] at hf
    simp only [candidateOf, hla, hlo] at hf
    by_cases hd : hav lat lon la lo ≤ radius
    · rw [if_pos hd] at hf
      exact ⟨la, lo, rfl, rfl, hd, (Option.some_injective _ hf).symm⟩
    · rw [if_neg hd] at hf
      exact absurd hf (by simp)
  · rintro ⟨row, hrow, la, lo, hla, hlo, hd, rfl⟩
    exact ⟨row, hrow, by simp [candidateOf, hla, hlo, hd]⟩

/-- C7: the candidate stop finder returns exactly the stops whose
    coordinates parse and whose distance to the origin is within the
    radius (inclusive boundary), ordered by ascending distance with ties
    keeping the table order, and rows with unparseable coordinates are
    excluded without an error. -/
theorem candidate_stops_spec :
    ∀ (hav : Hav) (lat lon radius : ℚ) (rows : List StopRow),
      (∀ c ∈ fetch_candidate_stops hav lat lon radius rows, c.distance_m ≤ radius) ∧
      (∀ row ∈ rows, ∀ la lo, row.stop_lat = some la → row.stop_lon = some lo →
          hav lat lon la lo ≤ radius →
          (⟨row.stop_id, row.stop_name, la, lo, hav lat lon la lo⟩ : Candidate) ∈
            fetch_candidate_stops hav lat lon radius rows) ∧
      (∀ c ∈ fetch_candidate_stops hav lat lon radius rows,
          ∃ row ∈ rows, row.stop_lat = some c.latitude ∧
            row.stop_lon = some c.longitude ∧ c.stop_id = row.stop_id ∧
            c.name = row.stop_name ∧
            c.distance_m = hav lat lon c.latitude c.longitude) ∧
      (fetch_candidate_stops hav lat lon radius rows).Pairwise
        (fun a b => a.distance_m ≤ b.distance_m) ∧
      (∀ q : ℚ, (fetch_candidate_stops hav lat lon radius rows).filter
          (fun c => decide (c.distance_m = q)) =
        (unsortedCandidates hav lat lon radius rows).filter
          (fun c => decide (c.distance_m = q))) := by
  intro hav lat lon radius rows
  refine ⟨?_, ?_, ?_, ?_, ?_⟩
  · intro c hc
    rw [fetch_candidate_stops, mem_sortAsc, mem_unsortedCandidates] at hc
    rcases hc with ⟨row, _, la, lo, _, _, hd, rfl⟩
    exact hd
  · intro row hrow la lo hla hlo hd
    rw [fetch_candidate_stops, mem_sortAsc, mem_unsortedCandidates]
    exact ⟨row, hrow, la, lo, hla, hlo, hd, rfl⟩
  · intro c hc
    rw [fetch_candidate_stops, mem_sortAsc, mem_unsortedCandidates] at hc
    rcases hc with ⟨row, hrow, la, lo, hla, hlo, _, rfl⟩
    exact ⟨row, hrow, hla, hlo, rfl, rfl, rfl⟩
  · have := sortAsc_pairwise (fun x y => ratLtB x.distance_m y.distance_m)
      (fun a b h => ratLtB_asymm a.distance_m b.distance_m h)
      (fun a b c h1 h2 =>
        ratLtB_negTrans a.distance_m b.distance_m c.distance_m h1 h2)
      (unsortedCandidates hav lat lon radius rows)
    rw [fetch_candidate_stops]
    refine this.imp ?_
    intro a b h
    simp only [ratLtB, decide_eq_false_iff_not, not_lt] at h
    exact h
  · intro q
    rw [fetch_candidate_stops]
    refine sortAsc_filter _ _ ?_ _
    intro a b ha hb
    rw [decide_eq_true_iff] at ha hb
    simp [ratLtB, ha, hb]

/-- Witness for candidate_stops_spec: a parseable in-radius row is
    returned, an unparseable row is dropped, and every returned distance
    is within the radius. -/
theorem candidate_stops_spec_witness :
    ((⟨"A", "Stop A", 0, 0, gridDist 0 0 0 0⟩ : Candidate) ∈
      fetch_candidate_stops gridDist 0 0 100
        [⟨"A", "Stop A", some 0, some 0⟩, ⟨"B", "Stop B", none, some 1⟩]) ∧
    (∀ c ∈ fetch_candidate_stops gridDist 0 0 100
        [⟨"A", "Stop A", some 0, some 0⟩, ⟨"B", "Stop B", none, some 1⟩],
      c.distance_m ≤ 100) :=
  ⟨(candidate_stops_spec gridDist 0 0 100
      [⟨"A", "Stop A", some 0, some 0⟩, ⟨"B", "Stop B", none, some 1⟩]).2.1
      ⟨"A", "Stop A", some 0, some 0⟩ (by simp) 0 0 rfl rfl
      (by norm_num [gridDist]),
   (candidate_stops_spec gridDist 0 0 100
      [⟨"A", "Stop A", some 0, some 0⟩, ⟨"B", "Stop B", none, some 1⟩]).1⟩

/-- C8: the direction filter returns true whenever the boarding stop does
    not occur in the trip or the trip has no visit after it (fail-open);
    otherwise, with the next visited stop's coordinates parsing, it
    returns true exactly when that stop is not farther from the
    destination than the boarding stop (ties pass). -/
theorem direction_filter_spec :
    ∀ (hav : Hav) (db : DB) (trip_id stop_id : String) (clat clon dlat dlon : ℚ),
      ((∀ st ∈ db.stop_times, ¬(st.trip_id = trip_id ∧ st.stop_id = stop_id)) →
        is_trip_towards_destination hav db trip_id stop_id clat clon dlat dlon =
          .ok true) ∧
      (∀ seq, minSeqOfStopInTrip db trip_id stop_id = some seq →
        (∀ st ∈ db.stop_times, st.trip_id = trip_id → st.stop_sequence ≤ seq) →
        is_trip_towards_destination hav db trip_id stop_id clat clon dlat dlon =
          .ok true) ∧
      (∀ seq nxt, minSeqOfStopInTrip db trip_id stop_id = some seq →
        nextJoinedVisit db trip_id seq = some nxt →
        ∀ nlat nlon, nxt.2.stop_lat = some nlat → nxt.2.stop_lon = some nlon →
        (is_trip_towards_destination hav db trip_id stop_id clat clon dlat dlon =
            .ok true ↔
          hav nlat nlon dlat dlon ≤ hav clat clon dlat dlon)) := by
  intro hav db trip_id stop_id clat clon dlat dlon
  refine ⟨?_, ?_, ?_⟩
  · intro habs
    have hfil : db.stop_times.filter
        (fun st => st.trip_id = trip_id && st.stop_id = stop_id) = [] := by
      rw [List.filter_eq_nil_iff]
      intro st hst
      have := habs st hst
      simp only [Bool.and_eq_true, decide_eq_true_iff]
      tauto
    have hmin : minSeqOfStopInTrip db trip_id stop_id = none := by
      rw [minSeqOfStopInTrip, hfil]
      rfl
    rw [is_trip_towards_destination, hmin]
  · intro seq hmin hle
    have hfil : db.stop_times.filter
        (fun st => st.trip_id = trip_id && decide (seq < st.stop_sequence)) = [] := by
      rw [List.filter_eq_nil_iff]
      intro st hst
      simp only [Bool.and_eq_true, decide_eq_true_iff, not_and]
      intro ht
      exact not_lt.mpr (hle st hst ht)
    have hnxt : nextJoinedVisit db trip_id seq = none := by
      rw [nextJoinedVisit, hfil]
      rfl
    rw [is_trip_towards_destination, hmin]
    simp [hnxt]
  · intro seq nxt hmin hnxt nlat nlon hla hlo
    rw [is_trip_towards_destination, hmin]
    simp [hnxt, hla, hlo, decide_eq_true_iff]

/-- Witness for direction_filter_spec: in a two-stop trip the next stop
    is closer to the destination than the boarding stop, so the filter
    passes. -/
theorem direction_filter_spec_witness :
    is_trip_towards_destination gridDist dbTwoStops "T1" "A" 0 0 0 2 = .ok true :=
  ((direction_filter_spec gridDist dbTwoStops "T1" "A" 0 0 0 2).2.2 1
      (⟨"T1", "08:10:00", "08:10:00", "B", 2⟩, ⟨"B", "Stop B", some 0, some 1⟩)
      (by decide) (by decide) 0 1 rfl rfl).mpr
    (by norm_num [gridDist])

/-- C1 at the failing input: a stop visit whose hour field is 25 makes
    the closest-departures query propagate the ValueError raised by
    datetime.replace inside combine_date_and_hms, instead of returning a
    (possibly empty) list. -/
theorem closest_departures_hour25_raises :
    query_closest_departures gridDist dbHour25 0 0 0 1 refT 5 500 =
      .error "ValueError: replace field out of range" := by
  with_unfolding_all rfl

theorem foldlMin_mem (xs : List (ℚ × String)) (a : ℚ × String) :
    xs.foldl (fun m y => if keyLt y m then y else m) a ∈ a :: xs := by
  induction xs generalizing a with
  | nil => simp
  | cons x xs ih =>
    simp only [List.foldl_cons]
    by_cases h : keyLt x a = true
    · rw [if_pos h]
      rcases List.mem_cons.mp (ih x) with h2 | h2
      · exact List.mem_cons.mpr (Or.inr (List.mem_cons.mpr (Or.inl h2)))
      · exact List.mem_cons.mpr (Or.inr (List.mem_cons.mpr (Or.inr h2)))
    · rw [if_neg h]
      rcases List.mem_cons.mp (ih a) with h2 | h2
      · exact List.mem_cons.mpr (Or.inl h2)
      · exact List.mem_cons.mpr (Or.inr (List.mem_cons.mpr (Or.inr h2)))

theorem removeFirst_subset (x : ℚ × String) (l : List (ℚ × String)) :
    ∀ y ∈ removeFirst x l, y ∈ l := by
  induction l with
  | nil => simp [removeFirst]
  | cons z zs ih =>
    intro y hy
    rw [removeFirst] at hy
    by_cases h : keyEqB z x = true
    · rw [if_pos h] at hy
      exact List.mem_cons.mpr (Or.inr hy)
    · rw [if_neg h] at hy
      rcases List.mem_cons.mp hy with rfl | hy
      · exact List.mem_cons.mpr (Or.inl rfl)
      · exact List.mem_cons.mpr (Or.inr (ih y hy))

theorem popMin_spec (l : List (ℚ × String)) (x : ℚ × String)
    (rest : List (ℚ × String)) (h : popMin l = some (x, rest)) :
    x ∈ l ∧ ∀ y ∈ rest, y ∈ l := by
  cases l with
  | nil => simp [popMin] at h
  | cons z zs =>
    simp only [popMin, Option.some_inj, Prod.mk.injEq] at h
    rcases h with ⟨hx, hrest⟩
    constructor
    · rw [← hx]
      exact foldlMin_mem zs z
    · intro y hy
      rw [← hrest] at hy
      exact removeFirst_subset _ _ y hy

theorem updFn_isSome (f : String → Option Step) (k : String) (v : Step) (s : String)
    (h : (f s).isSome = true ∨ s = k) : ((updFn f k (some v)) s).isSome = true := by
  rw [updFn]
  by_cases hs : s = k
  · rw [if_pos hs]; rfl
  · rw [if_neg hs]
    rcases h with h | h
    · exact h
    · exact absurd h hs

theorem relaxEdge_prevInv (sid : String) (t : ℚ) (st : SearchState) (e : Edge)
    (h : PrevInv st) : PrevInv (relaxEdge sid t st e) := by
  rw [relaxEdge]
  by_cases h1 : e.dep_sec < t - eps
  · rw [if_pos h1]; exact h
  · rw [if_neg h1]
    by_cases h2 : e.arr_sec < st.best e.to_stop_id
    · rw [if_pos h2]
      refine ⟨?_, ?_⟩
      · intro p hp
        rcases List.mem_cons.mp hp with rfl | hp
        · exact updFn_isSome _ _ _ _ (Or.inr rfl)
        · exact updFn_isSome _ _ _ _ (Or.inl (h.1 p hp))
      · intro s hs
        exact updFn_isSome _ _ _ _ (Or.inl (h.2 s hs))
    · rw [if_neg h2]; exact h

theorem relaxFold_prevInv (sid : String) (t : ℚ) (edges : List Edge) :
    ∀ st : SearchState, PrevInv st →
      PrevInv (edges.foldl (relaxEdge sid t) st) := by
  induction edges with
  | nil => intro st h; exact h
  | cons e es ih =>
    intro st h
    exact ih (relaxEdge sid t st e) (relaxEdge_prevInv sid t st e h)

theorem searchLoop_prevInv (ctx : SearchCtx) :
    ∀ (fuel : ℕ) (st : SearchState), PrevInv st → PrevInv (searchLoop ctx fuel st) := by
  intro fuel
  induction fuel with
  | zero => intro st h; exact h
  | succ n ih =>
    intro st h
    rw [searchLoop]
    rcases hp : popMin st.pq with _ | ⟨⟨t, sid⟩, rest⟩
    · exact h
    · have hmem := popMin_spec st.pq (t, sid) rest hp
      have h1 : PrevInv { st with pq := rest } :=
        ⟨fun p hpmem => h.1 p (hmem.2 p hpmem), h.2⟩
      simp only
      by_cases hstale : st.best sid + eps < t
      · rw [if_pos hstale]
        exact ih _ h1
      · rw [if_neg hstale]
        rcases hd : ctx.destWalk sid with _ | d
        · simp only
          by_cases hbreak : st.bestDest < t
          · rw [if_pos hbreak]; exact h1
          · rw [if_neg hbreak]
            exact ih _ (relaxFold_prevInv sid t _ _ h1)
        · simp only
          by_cases himp : t + d / ctx.walk_speed < st.bestDest
          · rw [if_pos himp]
            have h2 : PrevInv { st with
                pq := rest
                bestDest := t + d / ctx.walk_speed
                bestDestStop := some sid } := by
              refine ⟨h1.1, ?_⟩
              intro s hs
              have : s = sid := by
                simpa using hs.symm
              rw [this]
              exact h.1 (t, sid) hmem.1
            by_cases hbreak : t + d / ctx.walk_speed < t
            · rw [if_pos hbreak]; exact h2
            · rw [if_neg hbreak]
              exact ih _ (relaxFold_prevInv sid t _ _ h2)
          · rw [if_neg himp]
            by_cases hbreak : st.bestDest < t
            · rw [if_pos hbreak]; exact h1
            · rw [if_neg hbreak]
              exact ih _ (relaxFold_prevInv sid t _ _ h1)

theorem seedStep_prevInv (start_sec speed : ℚ) (st : SearchState) (c : String × ℚ)
    (h0 : PrevInv st) : PrevInv (seedStep start_sec speed st c) := by
  rw [seedStep]
  by_cases h : start_sec + c.2 / speed < st.best c.1
  · rw [if_pos h]
    refine ⟨?_, ?_⟩
    · intro p hp
      rcases List.mem_cons.mp hp with rfl | hp
      · exact updFn_isSome _ _ _ _ (Or.inr rfl)
      · exact updFn_isSome _ _ _ _ (Or.inl (h0.1 p hp))
    · intro s hs
      exact updFn_isSome _ _ _ _ (Or.inl (h0.2 s hs))
  · rw [if_neg h]
    exact h0

theorem initSearch_prevInv (oc : List (String × ℚ)) (start_sec speed : ℚ) :
    PrevInv (initSearch oc start_sec speed) := by
  rw [initSearch]
  have h0 : PrevInv emptySearchState := ⟨by simp [emptySearchState], by simp [emptySearchState]⟩
  generalize emptySearchState = st0 at h0 ⊢
  induction oc generalizing st0 with
  | nil => exact h0
  | cons c cs ih =>
    simp only [List.foldl_cons]
    exact ih _ (seedStep_prevInv start_sec speed st0 c h0)

theorem routeSearchState_prevInv (hav : Hav) (db : DB)
    (slat slon dlat dlon : ℚ) (startT : DateTime) (maxw speed : ℚ) :
    PrevInv (routeSearchState hav db slat slon dlat dlon startT maxw speed) := by
  rw [routeSearchState]
  exact searchLoop_prevInv _ _ _ (initSearch_prevInv _ _ _)

theorem reconstructBack_cons (prev : String → Option Step) (n : ℕ) (cur p : String)
    (step : Step) (h : prev cur = some step) (hp : step.prev_stop_id = some p) :
    reconstructBack prev (n + 1) cur =
      (reconstructBack prev n p).map fun l => { step with to_stop_id := cur } :: l := by
  rw [reconstructBack, h]
  simp only
  rw [hp]

theorem reconstructBack_ne_some_nil (prev : String → Option Step) (n : ℕ) (s : String)
    (h : (prev s).isSome = true) : reconstructBack prev n s ≠ some [] := by
  cases n with
  | zero =>
    intro hc
    exact Option.noConfusion hc
  | succ n =>
    intro hc
    rw [reconstructBack] at hc
    rcases hp : prev s with _ | step
    · rw [hp] at h; simp at h
    · rw [hp] at hc
      simp only at hc
      rcases hps : step.prev_stop_id with _ | p <;> rw [hps] at hc <;> simp at hc

theorem reconstructSegments_ne_some_nil (prev : String → Option Step) (n : ℕ)
    (s : String) (h : (prev s).isSome = true) :
    reconstructSegments prev n s ≠ some [] := by
  intro hc
  rw [reconstructSegments] at hc
  rcases hb : reconstructBack prev n s with _ | l
  · rw [hb] at hc
    exact Option.noConfusion hc
  · rw [hb] at hc
    simp only [Option.map] at hc
    injection hc with hc2
    exact reconstructBack_ne_some_nil prev n s h
      (List.reverse_eq_nil_iff.mp hc2 ▸ hb)

/-- C2 counterexample: a timetable with no transit edge, where a stop is
    walkable from both the origin and the destination and the embedded
    search reaches a destination-walkable stop, so none of the claimed
    NoRouteFound conditions holds, yet compute_best_route returns None
    at every reconstruction fuel. -/
theorem best_route_noedges_cex :
    (∀ fu, compute_best_route gridDist dbNoEdges 0 0 0 0 refT 500 (6/5) fu =
      some none) ∧
    originCandidates gridDist 0 0 500 (stopsMap dbNoEdges.stops) ≠ [] ∧
    destWalkList gridDist 0 0 500 (stopsMap dbNoEdges.stops) ≠ [] ∧
    (routeSearchState gridDist dbNoEdges 0 0 0 0 refT 500 (6/5)).bestDestStop =
      some "A" ∧
    (routeSearchState gridDist dbNoEdges 0 0 0 0 refT 500 (6/5)).bestDest < INF := by
  refine ⟨fun fu => by with_unfolding_all rfl, ?_, ?_, by with_unfolding_all rfl, ?_⟩
  · rw [show originCandidates gridDist 0 0 500 (stopsMap dbNoEdges.stops) = [("A", 0)]
      from by with_unfolding_all rfl]
    simp
  · rw [show destWalkList gridDist 0 0 500 (stopsMap dbNoEdges.stops) = [("A", 0)]
      from by with_unfolding_all rfl]
    simp
  · rw [show (routeSearchState gridDist dbNoEdges 0 0 0 0 refT 500 (6/5)).bestDest =
      28740 from by with_unfolding_all rfl]
    norm_num [INF]

/-- C2 as amended: at every reconstruction fuel, compute_best_route
    returns None exactly when no stop is walkable from the origin, or
    none is walkable to the destination, or the timetable yields no
    transit edge, or the search records no destination arrival below
    the infinity sentinel — in every other case it yields an itinerary
    or the divergence outcome of the reconstruction loop, never None;
    and as a special case, a walking limit below the distance to every
    stop gives None. -/
theorem best_route_none_iff :
    ∀ (hav : Hav) (db : DB) (slat slon dlat dlon : ℚ) (startT : DateTime)
      (maxw speed : ℚ) (fu : ℕ),
      (compute_best_route hav db slat slon dlat dlon startT maxw speed fu =
          some none ↔
        originCandidates hav slat slon maxw (stopsMap db.stops) = [] ∨
        destWalkList hav dlat dlon maxw (stopsMap db.stops) = [] ∨
        buildEdgeList (stopsMap db.stops) (orderedStopTimes db) = [] ∨
        (routeSearchState hav db slat slon dlat dlon startT maxw speed).bestDestStop
          = none ∨
        INF ≤ (routeSearchState hav db slat slon dlat dlon startT maxw speed).bestDest) ∧
      ((∀ p ∈ stopsMap db.stops, ¬ hav slat slon p.2.lat p.2.lon ≤ maxw) →
        compute_best_route hav db slat slon dlat dlon startT maxw speed fu =
          some none) := by
  intro hav db slat slon dlat dlon startT maxw speed fu
  have hiff : compute_best_route hav db slat slon dlat dlon startT maxw speed fu =
      some none ↔
      originCandidates hav slat slon maxw (stopsMap db.stops) = [] ∨
      destWalkList hav dlat dlon maxw (stopsMap db.stops) = [] ∨
      buildEdgeList (stopsMap db.stops) (orderedStopTimes db) = [] ∨
      (routeSearchState hav db slat slon dlat dlon startT maxw speed).bestDestStop
        = none ∨
      INF ≤ (routeSearchState hav db slat slon dlat dlon startT maxw speed).bestDest := by
    by_cases h1 : db.stops = []
    · constructor
      · intro _
        refine Or.inl ?_
        rw [h1]
        rfl
      · intro _
        rw [compute_best_route, if_pos h1]
    · by_cases h2 : stopsMap db.stops = []
      · constructor
        · intro _
          refine Or.inl ?_
          rw [h2]
          rfl
        · intro _
          rw [compute_best_route, if_neg h1]
          simp [h2]
      · by_cases h3 : originCandidates hav slat slon maxw (stopsMap db.stops) = [] ∨
            destWalkList hav dlat dlon maxw (stopsMap db.stops) = []
        · constructor
          · intro _
            rcases h3 with h3 | h3
            · exact Or.inl h3
            · exact Or.inr (Or.inl h3)
          · intro _
            rw [compute_best_route, if_neg h1, if_neg h2, if_pos h3]
        · by_cases h4 : buildEdgeList (stopsMap db.stops) (orderedStopTimes db) = []
          · constructor
            · intro _
              exact Or.inr (Or.inr (Or.inl h4))
            · intro _
              rw [compute_best_route, if_neg h1, if_neg h2, if_neg h3, if_pos h4]
          · rw [compute_best_route, if_neg h1, if_neg h2, if_neg h3, if_neg h4]
            push_neg at h3
            rcases hbd : (routeSearchState hav db slat slon dlat dlon startT maxw
                speed).bestDestStop with _ | s
            · simp only [hbd]
              simp [h3.1, h3.2, h4]
            · simp only [hbd]
              by_cases hinf : INF ≤ (routeSearchState hav db slat slon dlat dlon
                  startT maxw speed).bestDest
              · rw [if_pos hinf]
                simp [hinf]
              · rw [if_neg hinf]
                have hprev : ((routeSearchState hav db slat slon dlat dlon startT maxw
                    speed).prev s).isSome = true :=
                  (routeSearchState_prevInv hav db slat slon dlat dlon startT maxw
                    speed).2 s hbd
                have hne := reconstructSegments_ne_some_nil
                  (routeSearchState hav db slat slon dlat dlon startT maxw speed).prev
                  fu s hprev
                rcases hseg : reconstructSegments (routeSearchState hav db slat slon
                    dlat dlon startT maxw speed).prev fu s
                  with _ | segs
                · simp [h3.1, h3.2, h4, hinf]
                · rcases segs with _ | ⟨seg0, segRest⟩
                  · exact absurd hseg hne
                  · simp [h3.1, h3.2, h4, hinf, Option.map, routeOfSegments]
  refine ⟨hiff, ?_⟩
  intro hfar
  refine hiff.mpr (Or.inl ?_)
  rw [originCandidates, List.filterMap_eq_nil_iff]
  intro p hp
  simp only
  rw [if_neg (hfar p hp)]

/-- Witness for best_route_none_iff: a walking limit below every stop
    distance forces NoRouteFound. -/
theorem best_route_none_iff_witness :
    compute_best_route gridDist dbNoEdges 0 0 0 0 refT (-1) (6/5) 0 = some none := by
  refine (best_route_none_iff gridDist dbNoEdges 0 0 0 0 refT (-1) (6/5) 0).2 ?_
  intro p hp
  rw [show stopsMap dbNoEdges.stops = [("A", ⟨"A", "Stop A", 0, 0⟩)]
    from by with_unfolding_all rfl] at hp
  simp only [List.mem_singleton] at hp
  rw [hp]
  norm_num [gridDist]

theorem compute_best_route_reduce (hav : Hav) (db : DB)
    (slat slon dlat dlon : ℚ) (startT : DateTime) (maxw speed : ℚ) (fu : ℕ)
    (s : String)
    (h1 : ¬ db.stops = []) (h2 : ¬ stopsMap db.stops = [])
    (h3 : ¬ (originCandidates hav slat slon maxw (stopsMap db.stops) = [] ∨
        destWalkList hav dlat dlon maxw (stopsMap db.stops) = []))
    (h4 : ¬ buildEdgeList (stopsMap db.stops) (orderedStopTimes db) = [])
    (h5 : (routeSearchState hav db slat slon dlat dlon startT maxw speed).bestDestStop
        = some s)
    (h6 : ¬ INF ≤ (routeSearchState hav db slat slon dlat dlon startT maxw
        speed).bestDest) :
    compute_best_route hav db slat slon dlat dlon startT maxw speed fu =
      (reconstructSegments
          (routeSearchState hav db slat slon dlat dlon startT maxw speed).prev
          fu s).map
        (routeOfSegments (iso_day_start_and_seconds startT).1 startT
          ((iso_day_start_and_seconds startT).2 : ℚ) (tripMeta db.trips)
          (destWalkList hav dlat dlon maxw (stopsMap db.stops))
          (routeSearchState hav db slat slon dlat dlon startT maxw speed) s) := by
  rw [compute_best_route, if_neg h1, if_neg h2, if_neg h3, if_neg h4]
  simp only [h5]
  rw [if_neg h6]

/-- The reconstruction loop can be entered on a cyclic predecessor map:
    the search on dbCycle ends with U recorded as the destination stop,
    U's predecessor pointing at V and V's back at U, and the unrolled
    reconstruction meets no root at any fuel — on this timetable the
    source loop runs forever, so the embedded bestRoute yields the
    divergence outcome at every fuel. -/
theorem best_route_cycle_diverges :
    ((routeSearchState gridDist dbCycle 0 0 0 (1/100000000000) refT8 1
        (6/5)).prev "U").map Step.prev_stop_id = some (some "V") ∧
    ((routeSearchState gridDist dbCycle 0 0 0 (1/100000000000) refT8 1
        (6/5)).prev "V").map Step.prev_stop_id = some (some "U") ∧
    ∀ fu, compute_best_route gridDist dbCycle 0 0 0 (1/100000000000) refT8 1
        (6/5) fu = none := by
  have hU : (routeSearchState gridDist dbCycle 0 0 0 (1/100000000000) refT8 1
      (6/5)).prev "U" = some ⟨some "V", some "T2", 28800, 28800, "ride", none⟩ := by
    with_unfolding_all rfl
  have hV : (routeSearchState gridDist dbCycle 0 0 0 (1/100000000000) refT8 1
      (6/5)).prev "V" = some ⟨some "U", some "T1", 28800, 28800, "ride", none⟩ := by
    with_unfolding_all rfl
  have key : ∀ n,
      reconstructBack (routeSearchState gridDist dbCycle 0 0 0 (1/100000000000) refT8 1
        (6/5)).prev n "U" = none ∧
      reconstructBack (routeSearchState gridDist dbCycle 0 0 0 (1/100000000000) refT8 1
        (6/5)).prev n "V" = none := by
    intro n
    induction n with
    | zero => exact ⟨rfl, rfl⟩
    | succ n ih =>
      refine ⟨?_, ?_⟩
      · rw [reconstructBack_cons _ n "U" "V" _ hU rfl, ih.2]
        rfl
      · rw [reconstructBack_cons _ n "V" "U" _ hV rfl, ih.1]
        rfl
  have h1 : ¬ dbCycle.stops = [] := by simp [dbCycle]
  have h2 : ¬ stopsMap dbCycle.stops = [] := by
    rw [show stopsMap dbCycle.stops =
      [("U", ⟨"U", "Stop U", 0, 1/100000000000⟩),
       ("V", ⟨"V", "Stop V", 50, 50⟩)] from by with_unfolding_all rfl]
    simp
  have h3 : ¬ (originCandidates gridDist 0 0 1 (stopsMap dbCycle.stops) = [] ∨
      destWalkList gridDist 0 (1/100000000000) 1 (stopsMap dbCycle.stops) = []) := by
    rw [show originCandidates gridDist 0 0 1 (stopsMap dbCycle.stops) =
      [("U", 1/1000000)] from by with_unfolding_all rfl]
    rw [show destWalkList gridDist 0 (1/100000000000) 1 (stopsMap dbCycle.stops) =
      [("U", 0)] from by with_unfolding_all rfl]
    simp
  have h4 : ¬ buildEdgeList (stopsMap dbCycle.stops) (orderedStopTimes dbCycle) = [] := by
    rw [show buildEdgeList (stopsMap dbCycle.stops) (orderedStopTimes dbCycle) =
      [("U", ⟨"T1", "V", 28800, 28800⟩), ("V", ⟨"T2", "U", 28800, 28800⟩)]
      from by with_unfolding_all rfl]
    simp
  have h5 : (routeSearchState gridDist dbCycle 0 0 0 (1/100000000000) refT8 1
      (6/5)).bestDestStop = some "U" := by with_unfolding_all rfl
  have h6 : ¬ INF ≤ (routeSearchState gridDist dbCycle 0 0 0 (1/100000000000) refT8 1
      (6/5)).bestDest := by
    rw [show (routeSearchState gridDist dbCycle 0 0 0 (1/100000000000) refT8 1
      (6/5)).bestDest = 28800 from by with_unfolding_all rfl]
    norm_num [INF]
  refine ⟨by rw [hU]; rfl, by rw [hV]; rfl, ?_⟩
  intro fu
  rw [compute_best_route_reduce gridDist dbCycle 0 0 0 (1/100000000000) refT8 1
      (6/5) fu "U" h1 h2 h3 h4 h5 h6]
  rw [reconstructSegments, (key fu).1]
  rfl

/-- C10: with a transit edge present in the timetable and stop A within
    the walking limit of both the origin and the destination, bestRoute
    can terminate with an itinerary holding no ride leg at all: exactly
    one walk-in leg to A followed by one walk-out leg from the same
    stop A. -/
theorem best_route_can_be_walk_only :
    buildEdgeList (stopsMap dbWalkOnly.stops) (orderedStopTimes dbWalkOnly) ≠ [] ∧
    gridDist 0 0 0 0 ≤ 500 ∧ gridDist 0 (1/1000) 0 0 ≤ 500 ∧
    (compute_best_route gridDist dbWalkOnly 0 0 0 (1/1000) refT 500 (6/5) 4).map
        (Option.map Route.legs) =
      some (some
        [Leg.walk none (some "A") 0 ⟨100, 7, 59, 0, 0⟩ ⟨100, 7, 59, 0, 0⟩,
         Leg.walk (some "A") none 100 ⟨100, 7, 59, 0, 0⟩ ⟨100, 8, 0, 23, 0⟩]) := by
  refine ⟨?_, by norm_num [gridDist], by norm_num [gridDist], by with_unfolding_all rfl⟩
  rw [show buildEdgeList (stopsMap dbWalkOnly.stops) (orderedStopTimes dbWalkOnly) =
    [("X", ⟨"T9", "Y", 28800, 29400⟩)] from by with_unfolding_all rfl]
  simp

theorem processRows_length (hav : Hav) (db : DB) (dlat dlon : ℚ) (startT : DateTime)
    (limit : ℕ) (stop : Candidate) :
    ∀ (rows : List (StopTimeRow × TripRow)) (acc l : List Departure),
      acc.length ≤ limit →
      processRows hav db dlat dlon startT limit stop rows acc = .ok l →
      l.length ≤ limit := by
  intro rows
  induction rows with
  | nil =>
    intro acc l ha h
    rw [processRows] at h
    injection h with h2
    subst h2
    exact ha
  | cons row rest ih =>
    intro acc l ha h
    rw [processRows] at h
    by_cases hl : limit ≤ acc.length
    · rw [if_pos hl] at h
      injection h with h2
      subst h2
      exact ha
    · rw [if_neg hl] at h
      push_neg at hl
      rcases hfil : is_trip_towards_destination hav db row.1.trip_id row.1.stop_id
          stop.latitude stop.longitude dlat dlon with e | b
      · rw [hfil] at h
        exact Except.noConfusion h
      · rw [hfil] at h
        cases b
        · exact ih acc l ha h
        · rcases hemit : emitDeparture startT stop row with e2 | d
          · rw [hemit] at h
            exact Except.noConfusion h
          · rw [hemit] at h
            refine ih (acc ++ [d]) l ?_ h
            simp only [List.length_append, List.length_singleton]
            omega

theorem processRows_prop (hav : Hav) (db : DB) (dlat dlon : ℚ) (startT : DateTime)
    (limit : ℕ) (stop : Candidate) (P : Departure → Prop)
    (hstep : ∀ (row : StopTimeRow × TripRow) (d : Departure),
      row ∈ stopDepartureRows db stop.stop_id (extract_time_part_hms startT) →
      is_trip_towards_destination hav db row.1.trip_id row.1.stop_id
        stop.latitude stop.longitude dlat dlon = .ok true →
      emitDeparture startT stop row = .ok d → P d) :
    ∀ (rows : List (StopTimeRow × TripRow)) (acc l : List Departure),
      (∀ row ∈ rows, row ∈ stopDepartureRows db stop.stop_id
        (extract_time_part_hms startT)) →
      (∀ d ∈ acc, P d) →
      processRows hav db dlat dlon startT limit stop rows acc = .ok l →
      ∀ d ∈ l, P d := by
  intro rows
  induction rows with
  | nil =>
    intro acc l _ hacc h
    rw [processRows] at h
    injection h with h2
    subst h2
    exact hacc
  | cons row rest ih =>
    intro acc l hsub hacc h
    rw [processRows] at h
    by_cases hl : limit ≤ acc.length
    · rw [if_pos hl] at h
      injection h with h2
      subst h2
      exact hacc
    · rw [if_neg hl] at h
      rcases hfil : is_trip_towards_destination hav db row.1.trip_id row.1.stop_id
          stop.latitude stop.longitude dlat dlon with e | b
      · rw [hfil] at h
        exact Except.noConfusion h
      · rw [hfil] at h
        cases b
        · exact ih acc l (fun r hr => hsub r (List.mem_cons.mpr (Or.inr hr))) hacc h
        · rcases hemit : emitDeparture startT stop row with e2 | d
          · rw [hemit] at h
            exact Except.noConfusion h
          · rw [hemit] at h
            refine ih (acc ++ [d]) l
              (fun r hr => hsub r (List.mem_cons.mpr (Or.inr hr))) ?_ h
            intro d2 hd2
            rcases List.mem_append.mp hd2 with hd2 | hd2
            · exact hacc d2 hd2
            · rcases List.mem_singleton.mp hd2 with rfl
              exact hstep row d2 (hsub row (List.mem_cons.mpr (Or.inl rfl))) hfil hemit

theorem processStops_length (hav : Hav) (db : DB) (dlat dlon : ℚ) (startT : DateTime)
    (tp : String) (limit : ℕ) :
    ∀ (stops : List Candidate) (acc l : List Departure),
      acc.length ≤ limit →
      processStops hav db dlat dlon startT tp limit stops acc = .ok l →
      l.length ≤ limit := by
  intro stops
  induction stops with
  | nil =>
    intro acc l ha h
    rw [processStops] at h
    injection h with h2
    subst h2
    exact ha
  | cons stop rest ih =>
    intro acc l ha h
    rw [processStops] at h
    by_cases hl : limit ≤ acc.length
    · rw [if_pos hl] at h
      injection h with h2
      subst h2
      exact ha
    · rw [if_neg hl] at h
      rcases hrows : processRows hav db dlat dlon startT limit stop
          (stopDepartureRows db stop.stop_id tp) acc with e | acc2
      · rw [hrows] at h
        exact Except.noConfusion h
      · rw [hrows] at h
        exact ih acc2 l
          (processRows_length hav db dlat dlon startT limit stop _ acc acc2 ha hrows) h

theorem processStops_prop (hav : Hav) (db : DB) (dlat dlon : ℚ) (startT : DateTime)
    (limit : ℕ) (P : Departure → Prop) :
    ∀ (stops : List Candidate),
      (∀ stop ∈ stops, ∀ (row : StopTimeRow × TripRow) (d : Departure),
        row ∈ stopDepartureRows db stop.stop_id (extract_time_part_hms startT) →
        is_trip_towards_destination hav db row.1.trip_id row.1.stop_id
          stop.latitude stop.longitude dlat dlon = .ok true →
        emitDeparture startT stop row = .ok d → P d) →
      ∀ (acc l : List Departure),
        (∀ d ∈ acc, P d) →
        processStops hav db dlat dlon startT (extract_time_part_hms startT) limit
          stops acc = .ok l →
        ∀ d ∈ l, P d := by
  intro stops
  induction stops with
  | nil =>
    intro _ acc l hacc h
    rw [processStops] at h
    injection h with h2
    subst h2
    exact hacc
  | cons stop rest ih =>
    intro hstep acc l hacc h
    rw [processStops] at h
    by_cases hl : limit ≤ acc.length
    · rw [if_pos hl] at h
      injection h with h2
      subst h2
      exact hacc
    · rw [if_neg hl] at h
      rcases hrows : processRows hav db dlat dlon startT limit stop
          (stopDepartureRows db stop.stop_id (extract_time_part_hms startT)) acc
        with e | acc2
      · rw [hrows] at h
        exact Except.noConfusion h
      · rw [hrows] at h
        refine ih (fun s hs => hstep s (List.mem_cons.mpr (Or.inr hs))) acc2 l ?_ h
        exact processRows_prop hav db dlat dlon startT limit stop P
          (fun row d hrow hfil hemit =>
            hstep stop (List.mem_cons.mpr (Or.inl rfl)) row d hrow hfil hemit)
          _ acc acc2 (fun r hr => hr) hacc hrows

theorem processStops_halt (hav : Hav) (db : DB) (dlat dlon : ℚ) (startT : DateTime)
    (tp : String) (limit : ℕ) :
    ∀ (stops : List Candidate) (acc : List Departure), limit ≤ acc.length →
      processStops hav db dlat dlon startT tp limit stops acc = .ok acc := by
  intro stops acc ha
  cases stops with
  | nil => rw [processStops]
  | cons stop rest => rw [processStops, if_pos ha]

/-- C9: whenever the closest-departures query returns a list, it has at
    most limit entries and every entry was emitted from a candidate stop
    and a fetched row whose trip passed the direction filter at that stop
    (an undeterminable direction passes); once limit records are
    collected the remaining candidate stops leave the result unchanged;
    and candidate stops are scanned in ascending-distance order. -/
theorem closest_departures_limit_filter :
    ∀ (hav : Hav) (db : DB) (slat slon dlat dlon : ℚ) (startT : DateTime)
      (limit : ℕ) (radius : ℚ),
      (∀ l, query_closest_departures hav db slat slon dlat dlon startT limit radius
          = .ok l →
        l.length ≤ limit ∧
        ∀ d ∈ l, ∃ stop ∈ fetch_candidate_stops hav slat slon radius db.stops,
          ∃ row ∈ stopDepartureRows db stop.stop_id (extract_time_part_hms startT),
            is_trip_towards_destination hav db row.1.trip_id row.1.stop_id
              stop.latitude stop.longitude dlat dlon = .ok true ∧
            emitDeparture startT stop row = .ok d) ∧
      (∀ (stops : List Candidate) (acc : List Departure), limit ≤ acc.length →
        processStops hav db dlat dlon startT (extract_time_part_hms startT) limit
          stops acc = .ok acc) ∧
      (fetch_candidate_stops hav slat slon radius db.stops).Pairwise
        (fun a b => a.distance_m ≤ b.distance_m) := by
  intro hav db slat slon dlat dlon startT limit radius
  refine ⟨?_, ?_, ?_⟩
  · intro l h
    rw [query_closest_departures] at h
    constructor
    · exact processStops_length hav db dlat dlon startT _ limit _ [] l (by simp) h
    · exact processStops_prop hav db dlat dlon startT limit _ _
        (fun stop hs row d hrow hfil hemit => ⟨stop, hs, row, hrow, hfil, hemit⟩)
        [] l (by simp) h
  · exact processStops_halt hav db dlat dlon startT _ limit
  · have := sortAsc_pairwise (fun x y => ratLtB x.distance_m y.distance_m)
      (fun a b h => ratLtB_asymm a.distance_m b.distance_m h)
      (fun a b c h1 h2 =>
        ratLtB_negTrans a.distance_m b.distance_m c.distance_m h1 h2)
      (unsortedCandidates hav slat slon radius db.stops)
    rw [fetch_candidate_stops]
    refine this.imp ?_
    intro a b h
    simp only [ratLtB, decide_eq_false_iff_not, not_lt] at h
    exact h

/-- Witness for closest_departures_limit_filter at a concrete query with
    limit one. -/
theorem closest_departures_limit_filter_witness :
    ([(⟨"T1", "R1", none, ⟨"Stop A", 0, 0, ⟨100, 8, 0, 0, 0⟩, ⟨100, 8, 0, 0, 0⟩, 0⟩⟩ :
        Departure)].length ≤ 1) ∧
    (∀ d ∈ [(⟨"T1", "R1", none,
        ⟨"Stop A", 0, 0, ⟨100, 8, 0, 0, 0⟩, ⟨100, 8, 0, 0, 0⟩, 0⟩⟩ : Departure)],
      ∃ stop ∈ fetch_candidate_stops gridDist 0 0 500 dbTwoStops.stops,
        ∃ row ∈ stopDepartureRows dbTwoStops stop.stop_id
            (extract_time_part_hms refT),
          is_trip_towards_destination gridDist dbTwoStops row.1.trip_id
            row.1.stop_id stop.latitude stop.longitude 0 1 = .ok true ∧
          emitDeparture refT stop row = .ok d) :=
  (closest_departures_limit_filter gridDist dbTwoStops 0 0 0 1 refT 1 500).1
    [⟨"T1", "R1", none, ⟨"Stop A", 0, 0, ⟨100, 8, 0, 0, 0⟩, ⟨100, 8, 0, 0, 0⟩, 0⟩⟩]
    (by with_unfolding_all rfl)

theorem mergeRun_mergeRun (k : String) (n : ℕ) (r : List (String × ℕ)) :
    mergeRun (some (k, n)) (mergeRun (some (k, 1)) r) =
      mergeRun (some (k, n + 1)) r := by
  cases r with
  | nil => simp [mergeRun]
  | cons p gs =>
    rcases p with ⟨k2, m⟩
    by_cases h : k = k2
    · subst h
      simp [mergeRun]
      omega
    · simp [mergeRun, h]

theorem mergeRun_cons_ne (k k2 : String) (n m : ℕ) (gs : List (String × ℕ))
    (h : k ≠ k2) :
    mergeRun (some (k, n)) ((k2, m) :: gs) = (k, n) :: (k2, m) :: gs := by
  simp [mergeRun, h]

theorem mergeRun_head (k : String) (n : ℕ) (r : List (String × ℕ)) :
    ∃ m gs, mergeRun (some (k, n)) r = (k, m) :: gs := by
  cases r with
  | nil => exact ⟨n, [], rfl⟩
  | cons p gs =>
    rcases p with ⟨k2, m2⟩
    by_cases h : k = k2
    · exact ⟨n + m2, gs, by simp [mergeRun, h]⟩
    · exact ⟨n, (k2, m2) :: gs, by simp [mergeRun, h]⟩

theorem rleKeys_cons (k : String) (ts : List String) :
    rleKeys (k :: ts) = mergeRun (some (k, 1)) (rleKeys ts) := by
  rw [rleKeys]
  cases h : rleKeys ts with
  | nil => simp [mergeRun]
  | cons p gs =>
    rcases p with ⟨k2, n⟩
    by_cases hk : k = k2
    · subst hk
      simp [mergeRun]
      omega
    · simp [mergeRun, hk]

theorem rideTripIds_cons_ride (seg : Seg) (rest : List Seg)
    (h : seg.mode = "ride") :
    rideTripIds (seg :: rest) = seg.trip_id.getD "" :: rideTripIds rest := by
  rw [rideTripIds, rideTripIds, List.filter]
  rw [decide_eq_true h]
  simp

theorem rideTripIds_cons_skip (seg : Seg) (rest : List Seg)
    (h : ¬ seg.mode = "ride") :
    rideTripIds (seg :: rest) = rideTripIds rest := by
  rw [rideTripIds, rideTripIds, List.filter]
  rw [decide_eq_false h]

theorem newRideLeg_runKey (ds : DateTime) (meta : String → Option TripRow)
    (seg : Seg) : (newRideLeg ds meta seg).runKey = (seg.trip_id.getD "", 1) := rfl

theorem rideStep_skip (ds : DateTime) (meta : String → Option TripRow)
    (acc : List RideLeg × Option RideLeg) (seg : Seg) (h : ¬ seg.mode = "ride") :
    rideStep ds meta acc seg = acc := by
  rw [rideStep, if_neg h]

theorem rideStep_open (ds : DateTime) (meta : String → Option TripRow)
    (fin : List RideLeg) (seg : Seg) (h : seg.mode = "ride") :
    rideStep ds meta (fin, none) seg = (fin, some (newRideLeg ds meta seg)) := by
  rw [rideStep, if_pos h]

theorem rideStep_extend (ds : DateTime) (meta : String → Option TripRow)
    (fin : List RideLeg) (c : RideLeg) (seg : Seg) (h : seg.mode = "ride")
    (ht : c.trip_id = seg.trip_id.getD "") :
    rideStep ds meta (fin, some c) seg =
      (fin, some { c with
        to_stop := seg.to_stop_id
        arrival_time := day_start_plus_seconds_to_iso ds seg.arr_time_sec
        num_stops := c.num_stops + 1 }) := by
  rw [rideStep, if_pos h]
  simp only [ht, if_pos]

theorem rideStep_close (ds : DateTime) (meta : String → Option TripRow)
    (fin : List RideLeg) (c : RideLeg) (seg : Seg) (h : seg.mode = "ride")
    (ht : ¬ c.trip_id = seg.trip_id.getD "") :
    rideStep ds meta (fin, some c) seg =
      (fin ++ [c], some (newRideLeg ds meta seg)) := by
  rw [rideStep, if_pos h]
  simp only [ht, if_neg, Bool.false_eq_true, reduceIte]

theorem rideFold_runKeys (ds : DateTime) (meta : String → Option TripRow) :
    ∀ (segs : List Seg) (fin : List RideLeg) (cur : Option RideLeg),
      ((segs.foldl (rideStep ds meta) (fin, cur)).1 ++
        (segs.foldl (rideStep ds meta) (fin, cur)).2.toList).map RideLeg.runKey =
      fin.map RideLeg.runKey ++
        mergeRun (cur.map RideLeg.runKey) (rleKeys (rideTripIds segs)) := by
  intro segs
  induction segs with
  | nil =>
    intro fin cur
    cases cur with
    | none => simp [rideTripIds, rleKeys, mergeRun]
    | some c => simp [rideTripIds, rleKeys, mergeRun]
  | cons seg rest ih =>
    intro fin cur
    by_cases hmode : seg.mode = "ride"
    · rw [rideTripIds_cons_ride seg rest hmode, rleKeys_cons]
      cases cur with
      | none =>
        rw [List.foldl_cons, rideStep_open ds meta fin seg hmode, ih]
        simp [newRideLeg, RideLeg.runKey, mergeRun]
      | some c =>
        by_cases htrip : c.trip_id = seg.trip_id.getD ""
        · rw [List.foldl_cons, rideStep_extend ds meta fin c seg hmode htrip, ih]
          simp only [Option.map, RideLeg.runKey]
          rw [htrip, mergeRun_mergeRun]
        · rw [List.foldl_cons, rideStep_close ds meta fin c seg hmode htrip, ih]
          rcases mergeRun_head (seg.trip_id.getD "") 1 (rleKeys (rideTripIds rest))
            with ⟨m, gs, hmg⟩
          simp only [Option.map, RideLeg.runKey, newRideLeg, hmg]
          rw [mergeRun_cons_ne _ _ _ _ _ htrip]
          simp [RideLeg.runKey]
    · rw [List.foldl_cons, rideStep_skip ds meta (fin, cur) seg hmode,
        rideTripIds_cons_skip seg rest hmode]
      exact ih fin cur

theorem mergeRun_chain (k : String) (n : ℕ) (r : List (String × ℕ))
    (hr : r.Chain' (fun a b => a.1 ≠ b.1)) :
    (mergeRun (some (k, n)) r).Chain' (fun a b => a.1 ≠ b.1) := by
  rcases r with _ | ⟨⟨k2, m⟩, gs⟩
  · simp [mergeRun]
  · by_cases hk : k = k2
    · subst hk
      simp only [mergeRun]
      rw [if_pos trivial]
      rcases List.chain'_cons'.mp hr with ⟨hh, hgs⟩
      exact List.chain'_cons'.mpr ⟨fun y hy => hh y hy, hgs⟩
    · simp only [mergeRun]
      rw [if_neg hk]
      exact List.chain'_cons.mpr ⟨by simpa using hk, hr⟩

theorem rleKeys_chain (l : List String) :
    (rleKeys l).Chain' (fun a b => a.1 ≠ b.1) := by
  induction l with
  | nil => simp [rleKeys]
  | cons k ts ih =>
    rw [rleKeys_cons]
    exact mergeRun_chain k 1 (rleKeys ts) ih

/-- C5: in the ride-leg grouping of the itinerary reconstruction, the
    (trip, stop count) keys of the produced ride legs are exactly the
    run-length encoding of the trip ids of the ride segments, so every
    maximal run of consecutive same-trip segments becomes one ride leg
    whose stop count is incremented once per merged segment, and no two
    adjacent ride legs share a trip id. -/
theorem ride_leg_merging :
    ∀ (ds : DateTime) (meta : String → Option TripRow) (segs : List Seg),
      (rideLegsOf ds meta segs).map RideLeg.runKey = rleKeys (rideTripIds segs) ∧
      (rideLegsOf ds meta segs).Chain' (fun a b => a.trip_id ≠ b.trip_id) ∧
      buildRideLegs ds meta segs = (rideLegsOf ds meta segs).map RideLeg.toLeg := by
  intro ds meta segs
  have h1 : (rideLegsOf ds meta segs).map RideLeg.runKey =
      rleKeys (rideTripIds segs) := by
    rw [rideLegsOf]
    have := rideFold_runKeys ds meta segs [] none
    simpa [mergeRun] using this
  refine ⟨h1, ?_, rfl⟩
  have hchain := rleKeys_chain (rideTripIds segs)
  rw [← h1] at hchain
  have := List.chain'_map (fun r : RideLeg => r.runKey)
    (R := fun a b => a.1 ≠ b.1) (l := rideLegsOf ds meta segs)
  rw [this] at hchain
  exact hchain

end Transit
